import Mathlib

/-!
Verification of the deal-filtering / weighted-sampling core of the Deal-Tool
repository (`deal_filters.py`, `on_sale.py`, `product_index.py`, and the
block-allocation engine in `main.py`).

Shallow-embedding conventions:
* Python strings are `String` / `List Char`; `str.strip`, `str.lower` and the
  `\s`, `\d` regex classes are modelled on their ASCII subsets.
* Python `int` is `Int`, review/owner/ccu counts are `Nat` (they are counts),
  money amounts and float comparisons are exact rationals `ℚ`, and the
  real-valued scoring function (`math.log10`) lives in `ℝ`.
* Python dicts are association lists, sets are lists observed through `∈`.
* Every partial Python primitive (`int(...)`, `datetime(...)`) is modelled as
  an `Option`-returning function; a `try/except` around it becomes a `match`.
* `random.random()` is an injected stream `Nat → W` of draws in `[0,1)`, and
  the float weight arithmetic of the sampler is parametrised over an arbitrary
  `LinearOrderedField W` so that the structural theorems cover the real-number
  instance while remaining evaluable at `W := ℚ`.
-/

namespace DealTool

/-- ASCII whitespace, the characters `str.strip` and `\s` act on. -/
def isWs (c : Char) : Bool :=
  c = ' ' || c = '\t' || c = '\n' || c = '\r' || c = '\x0b' || c = '\x0c'

/-- Drop leading whitespace (the `\s*` regex step). -/
def dropWs (cs : List Char) : List Char := cs.dropWhile isWs

/-- Python `str.strip()` on a character list. -/
def pyStrip (cs : List Char) : List Char :=
  ((cs.dropWhile isWs).reverse.dropWhile isWs).reverse

/-- Python `str.strip()` on a string. -/
def pyStripS (s : String) : String := String.mk (pyStrip s.data)

/-- Python `str.lower()` (ASCII). -/
def pyLower (s : String) : String := String.mk (s.data.map Char.toLower)

/-- Numeric value of a decimal digit character. -/
def digitVal (c : Char) : Nat := c.toNat - 48

/-- Value of a list of decimal digit characters. -/
def digitsToNat (ds : List Char) : Nat :=
  ds.foldl (fun n c => 10 * n + digitVal c) 0

/-- Python `x in s` substring test on character lists (`leadsList` = prefix). -/
def leadsList : List Char → List Char → Bool
  | [], _ => true
  | _ :: _, [] => false
  | a :: as, b :: bs => a = b && leadsList as bs

/-- Python `x in s` substring containment. -/
def hasSub (needle : List Char) : List Char → Bool
  | [] => leadsList needle []
  | b :: bs => leadsList needle (b :: bs) || hasSub needle bs

/-- Python `int(s)` on a string: strip, optional sign, decimal digits;
`none` models the caught `ValueError`. -/
def pyParseInt (s : String) : Option Int :=
  let core : List Char → Option Int := fun ds =>
    if ds ≠ [] ∧ ds.all Char.isDigit then some (digitsToNat ds : Int) else none
  match pyStrip s.data with
  | '+' :: ds => core ds
  | '-' :: ds => (core ds).map (fun n => -n)
  | ds => core ds

/-- One day in milliseconds (`_ONE_DAY_MS` in `deal_filters.py`). -/
def ONE_DAY_MS : Int := 86400 * 1000

/-- Gregorian leap year. -/
def isLeap (y : Nat) : Bool := y % 4 = 0 && (y % 100 ≠ 0 || y % 400 = 0)

/-- Number of days of month `m` of year `y`. -/
def daysInMonth (y m : Nat) : Nat :=
  if m = 2 then (if isLeap y then 29 else 28)
  else if m = 4 ∨ m = 6 ∨ m = 9 ∨ m = 11 then 30
  else 31

/-- Days from 1970-01-01 to the Gregorian date `y-m-d` (valid date, `y ≥ 1`);
the standard era/day-of-era computation. -/
def daysFromCivil (y m d : Nat) : Int :=
  let y' := if m ≤ 2 then y - 1 else y
  let era := y' / 400
  let yoe := y' % 400
  let mp := if 2 < m then m - 3 else m + 9
  let doy := (153 * mp + 2) / 5 + (d - 1)
  let doe := yoe * 365 + yoe / 4 - yoe / 100 + doy
  ((era * 146097 + doe : Nat) : Int) - 719468

/-- `datetime(y, m, d, tzinfo=utc).timestamp() * 1000`, i.e. start-of-day UTC
milliseconds, `none` for the `ValueError` on an invalid calendar date
(this is the validity + timestamp part of `_date_str_to_start_of_day_ms`). -/
def dateStartMs (y m d : Nat) : Option Int :=
  if 1 ≤ y ∧ y ≤ 9999 ∧ 1 ≤ m ∧ m ≤ 12 ∧ 1 ≤ d ∧ d ≤ daysInMonth y m then
    some (daysFromCivil y m d * 86400000)
  else none

/-- End-of-day UTC milliseconds (`_date_str_to_end_of_day_ms`). -/
def dateEndMs (y m d : Nat) : Option Int :=
  (dateStartMs y m d).map (fun start => start + ONE_DAY_MS - 1)

/-- Match a full `\d{4}-\d{2}-\d{2}` token and read its numeric fields. -/
def matchDate : List Char → Option (Nat × Nat × Nat)
  | [a, b, c, e, h1, f, g, h2, h, i] =>
    if a.isDigit ∧ b.isDigit ∧ c.isDigit ∧ e.isDigit ∧ h1 = '-' ∧
        f.isDigit ∧ g.isDigit ∧ h2 = '-' ∧ h.isDigit ∧ i.isDigit then
      some (digitVal a * 1000 + digitVal b * 100 + digitVal c * 10 + digitVal e,
            digitVal f * 10 + digitVal g, digitVal h * 10 + digitVal i)
    else none
  | _ => none

/-- `_date_str_to_start_of_day_ms`: strip, match `^(\d{4})-(\d{2})-(\d{2})$`,
then build the UTC timestamp. -/
def date_str_to_start_of_day_ms (s : String) : Option Int :=
  match matchDate (pyStrip s.data) with
  | some (y, m, d) => dateStartMs y m d
  | none => none

/-- `_date_str_to_end_of_day_ms`. -/
def date_str_to_end_of_day_ms (s : String) : Option Int :=
  match date_str_to_start_of_day_ms s with
  | some start => some (start + ONE_DAY_MS - 1)
  | none => none

/-- Match `^(\d{4}-\d{2}-\d{2})\s*(?:\.\.|to)\s*(\d{4}-\d{2}-\d{2})$` (case
insensitive) against an already-stripped string. The separator alternatives
start with `.`/`t`/`T`, never with whitespace or a digit, so the maximal-munch
`\s*` steps are exactly the regex backtracking semantics. -/
def matchRange (cs : List Char) : Option ((Nat × Nat × Nat) × (Nat × Nat × Nat)) :=
  match matchDate (cs.take 10) with
  | none => none
  | some d1 =>
    match dropWs (cs.drop 10) with
    | c1 :: c2 :: r2 =>
      if (c1 = '.' ∧ c2 = '.') ∨ (c1.toLower = 't' ∧ c2.toLower = 'o') then
        match matchDate (dropWs r2) with
        | some d2 => some (d1, d2)
        | none => none
      else none
    | _ => none

/-- Match `^(>=?|<=?|==?|!=)\s*` and return the operator and the rest. The
one-character fallbacks of `>=?`/`<=?`/`==?` can never succeed where the
two-character form failed (the rest would then start with `=`, which no
continuation accepts), so the first-match split is the regex semantics. -/
def matchOpSplit (cs : List Char) : Option (String × List Char) :=
  if leadsList ['>', '='] cs then some (">=", cs.drop 2)
  else if leadsList ['>'] cs then some (">", cs.drop 1)
  else if leadsList ['<', '='] cs then some ("<=", cs.drop 2)
  else if leadsList ['<'] cs then some ("<", cs.drop 1)
  else if leadsList ['=', '='] cs then some ("==", cs.drop 2)
  else if leadsList ['='] cs then some ("=", cs.drop 1)
  else if leadsList ['!', '='] cs then some ("!=", cs.drop 2)
  else none

/-- Match `^(>=?|<=?|==?|!=)\s*(\d{4}-\d{2}-\d{2})$` on a stripped string. -/
def matchOpDate (cs : List Char) : Option (String × (Nat × Nat × Nat)) :=
  match matchOpSplit cs with
  | some (op, r) =>
    match matchDate (dropWs r) with
    | some d => some (op, d)
    | none => none
  | none => none

/-- `parse_sale_end_value` from `deal_filters.py`. -/
def parse_sale_end_value (value_str : String) : String × Option Int × Option Int :=
  let s := pyStrip value_str.data
  if s = [] then ("", none, none)
  else
    match matchRange s with
    | some ((y1, m1, d1), (y2, m2, d2)) =>
      match dateStartMs y1 m1 d1, dateEndMs y2 m2 d2 with
      | some lo, some hi =>
        if lo ≤ hi then ("range", some lo, some hi) else ("", none, none)
      | _, _ => ("", none, none)
    | none =>
      match matchOpDate s with
      | some (_, (y, m, d)) =>
        match dateEndMs y m d with
        | some ms => ("op", some ms, none)
        | none => ("", none, none)
      | none => ("", none, none)

/-- One currency's price/discount data of a product (feed variant). The feed's
`discountEndDate` is an epoch-ms value; the `int(...)` parse in `_sale_end_ms`
is absorbed into the type (an unparseable value behaves like an absent one). -/
structure Variant where
  currency : String
  discountPrice : Option ℚ
  discountPercentage : Option String
  discountEndDate : Option Int
  originalPrice : Option ℚ
  deriving DecidableEq, Repr

/-- A product row as consumed by the filters and the allocation engine.
`steam_tags` mirrors the `isinstance(tags, list)` dispatch in
`_apply_tags_filter`: the field may hold a list or a plain string. -/
structure Row where
  title : String
  link : String
  steam_app_id : Option Int
  variants_by_currency : List (String × Variant)
  steam_percent_positive : Option Int
  steam_review_desc : Option String
  steam_total_reviews : Option Nat
  steam_release_date : Option String
  steam_developer : Option String
  steam_publisher : Option String
  steam_tags : Option (List String ⊕ String)
  steamspy_owners_estimate : Option Nat
  steamspy_ccu : Option Nat
  deriving DecidableEq, Repr

/-- `STEAM_LABEL_MIN_PERCENT` from `config.py`. -/
def STEAM_LABEL_MIN_PERCENT : List (String × Int) :=
  [("Overwhelmingly Positive", 95), ("Very Positive", 80),
   ("Positive", 70), ("Mostly Positive", 70)]

/-- The `ok(...)` comparison chain that `apply_score_filter`,
`apply_discount_filter` and `apply_price_filter` each repeat verbatim: note
that the single `=` operator (accepted by the `==?` regexes) reaches the final
`return False`. -/
def cmpNumOp {β : Type} [LinearOrder β] (op : String) (x num : β) : Bool :=
  if op = ">" then decide (x > num)
  else if op = ">=" then decide (x ≥ num)
  else if op = "<" then decide (x < num)
  else if op = "<=" then decide (x ≤ num)
  else if op = "==" then decide (x = num)
  else if op = "!=" then !decide (x = num)
  else false

/-- Match `^(>=?|<=?|==?|!=)\s*(\d+)$` on a stripped string. -/
def matchOpNum (cs : List Char) : Option (String × Nat) :=
  match matchOpSplit cs with
  | some (op, r) =>
    let ds := dropWs r
    if ds ≠ [] ∧ ds.all Char.isDigit then some (op, digitsToNat ds) else none
  | none => none

/-- Match a full `\d+(?:\.\d+)?` token and read it as Python `float(...)`
does (decimal value, modelled exactly in `ℚ`). -/
def matchDecimal (ds : List Char) : Option ℚ :=
  if ds.takeWhile Char.isDigit = [] then none
  else
    match ds.dropWhile Char.isDigit with
    | [] => some (digitsToNat (ds.takeWhile Char.isDigit) : ℚ)
    | '.' :: fp =>
      if fp ≠ [] ∧ fp.all Char.isDigit then
        some ((digitsToNat (ds.takeWhile Char.isDigit) : ℚ) +
          (digitsToNat fp : ℚ) / (10 : ℚ) ^ fp.length)
      else none
    | _ => none

/-- Match `^(>=?|<=?|==?|!=)\s*(\d+(?:\.\d+)?)$` on a stripped string. -/
def matchOpRat (cs : List Char) : Option (String × ℚ) :=
  match matchOpSplit cs with
  | some (op, r) =>
    match matchDecimal (dropWs r) with
    | some q => some (op, q)
    | none => none
  | none => none

/-- `_discount_pct` from `on_sale.py`: best integer-parsed `discountPercentage`
over all variants, iterated in insertion order. -/
def _discount_pct (p : Row) : Option Int :=
  p.variants_by_currency.foldl
    (fun best v =>
      let pct := pyStripS (v.2.discountPercentage.getD "")
      if pct ≠ "" then
        match pyParseInt pct with
        | some n =>
          match best with
          | none => some n
          | some b => if n > b then some n else best
        | none => best
      else best)
    none

/-- `_sale_end_ms` from `on_sale.py`: latest `discountEndDate` over all
variants, or `none`. -/
def _sale_end_ms (p : Row) : Option Int :=
  p.variants_by_currency.foldl
    (fun latest v =>
      match v.2.discountEndDate with
      | none => latest
      | some ms =>
        match latest with
        | none => some ms
        | some l => if ms > l then some ms else latest)
    none

/-- Modelled from the spec: `_price_for_currency` is imported by
`deal_filters.py` from `on_sale.py` but its definition is not in the sources;
per the spec it resolves the current price for a currency as `discountPrice`
if present else `originalPrice` of that currency's variant, and `None` when
the row has no variant for that currency. -/
def _price_for_currency (p : Row) (currency : String) : Option ℚ :=
  match p.variants_by_currency.lookup currency with
  | none => none
  | some v =>
    match v.discountPrice with
    | some dp => some dp
    | none => v.originalPrice

/-- `apply_score_filter` from `deal_filters.py`. -/
def apply_score_filter (rows : List Row) (filter_type score_value label_value : String) :
    List Row :=
  if filter_type = "All" ∨ filter_type = "" then rows
  else if filter_type = "Exact %" then
    match pyParseInt score_value with
    | none => rows
    | some target =>
      rows.filter fun r =>
        match r.steam_percent_positive with
        | none => false
        | some p => decide (|p - target| ≤ 1)
  else if filter_type = "Operator" then
    match matchOpNum (pyStrip score_value.data) with
    | none => rows
    | some (op, num) =>
      rows.filter fun r =>
        match r.steam_percent_positive with
        | none => false
        | some p => cmpNumOp op p (num : Int)
  else if filter_type = "Label" ∧ label_value ≠ "" then
    match STEAM_LABEL_MIN_PERCENT.lookup label_value with
    | none => rows
    | some min_pct =>
      rows.filter fun r =>
        match r.steam_percent_positive with
        | none => false
        | some p => decide (min_pct ≤ p) && (r.steam_review_desc.getD "" = label_value)
  else rows

/-- `apply_reviews_filter` from `deal_filters.py`. -/
def apply_reviews_filter (rows : List Row) (min_reviews : String) : List Row :=
  match pyParseInt min_reviews with
  | none => rows
  | some n =>
    if n ≤ 0 then rows
    else rows.filter fun r => decide ((r.steam_total_reviews.getD 0 : Int) ≥ n)

/-- `apply_discount_filter` from `deal_filters.py`. -/
def apply_discount_filter (rows : List Row) (value_str : String) : List Row :=
  if pyStrip value_str.data = [] then rows
  else
    match matchOpNum (pyStrip value_str.data) with
    | none => rows
    | some (op, num) =>
      rows.filter fun r =>
        match _discount_pct r with
        | none => false
        | some pct => cmpNumOp op pct (num : Int)

/-- `apply_price_filter` from `deal_filters.py`. -/
def apply_price_filter (rows : List Row) (value_str : String) (currency : String) :
    List Row :=
  if pyStrip value_str.data = [] then rows
  else
    match matchOpRat (pyStrip value_str.data) with
    | none => rows
    | some (op, num) =>
      rows.filter fun r =>
        match _price_for_currency r currency with
        | none => false
        | some price => cmpNumOp op price num

/-- Lexicographic `≤` on Python's `(bool, int)` sort keys (`False < True`). -/
def keyLeBoolInt (a b : Bool × Int) : Bool :=
  if a.1 = b.1 then decide (a.2 ≤ b.2) else !a.1

/-- Sort key of "Ending Soon": `(_sale_end_ms(r) is None, _sale_end_ms(r) or 0)`. -/
def saleEndSoonKey (r : Row) : Bool × Int :=
  ((_sale_end_ms r).isNone, (_sale_end_ms r).getD 0)

/-- Sort key of "Ending Latest": `(_sale_end_ms(r) is None, -(_sale_end_ms(r) or 0))`. -/
def saleEndLatestKey (r : Row) : Bool × Int :=
  ((_sale_end_ms r).isNone, -((_sale_end_ms r).getD 0))

/-- `apply_sale_end_filter` from `deal_filters.py`. Python's `sorted` is the
stable ascending sort by key, i.e. `mergeSort` with the key's `≤`; in the
`op` branch the source re-matches the operator regex on the stripped value and
takes start-of-day of its date group, which is `dateStartMs` of the match. -/
def apply_sale_end_filter (rows : List Row) (filter_type value_str : String) :
    List Row :=
  if filter_type = "" ∨ filter_type = "All" then rows
  else if filter_type = "Ending Soon" then
    rows.mergeSort fun r1 r2 => keyLeBoolInt (saleEndSoonKey r1) (saleEndSoonKey r2)
  else if filter_type = "Ending Latest" then
    rows.mergeSort fun r1 r2 => keyLeBoolInt (saleEndLatestKey r1) (saleEndLatestKey r2)
  else if filter_type = "By date" then
    let (mode, a, b) := parse_sale_end_value value_str
    if mode = "" then rows
    else if mode = "op" then
      match matchOpDate (pyStrip value_str.data) with
      | none => rows
      | some (op, y, m, d) =>
        match dateStartMs y m d with
        | none => rows
        | some start_ms =>
          let end_ms := start_ms + ONE_DAY_MS - 1
          let next_day_ms := start_ms + ONE_DAY_MS
          rows.filter fun r =>
            match _sale_end_ms r with
            | none => false
            | some ms =>
              if op = "<" then decide (ms < start_ms)
              else if op = "<=" then decide (ms ≤ end_ms)
              else if op = ">" then decide (ms ≥ next_day_ms)
              else if op = ">=" then decide (ms ≥ start_ms)
              else if op = "==" then decide (start_ms ≤ ms ∧ ms ≤ end_ms)
              else if op = "!=" then !decide (start_ms ≤ ms ∧ ms ≤ end_ms)
              else false
    else if mode = "range" then
      match a, b with
      | some lo, some hi =>
        rows.filter fun r =>
          match _sale_end_ms r with
          | none => false
          | some ms => decide (lo ≤ ms ∧ ms ≤ hi)
      | _, _ => rows
    else rows
  else rows

/-- `apply_deal_filters` from `deal_filters.py`: the fixed pipeline order. -/
def apply_deal_filters (rows : List Row) (score_type score_value label_value : String)
    (min_reviews discount_value price_value : String) (currency : String)
    (sale_end_type sale_end_value : String) : List Row :=
  apply_sale_end_filter
    (apply_price_filter
      (apply_discount_filter
        (apply_reviews_filter
          (apply_score_filter rows score_type score_value label_value)
          min_reviews)
        discount_value)
      price_value currency)
    sale_end_type sale_end_value

/-- Lowercase month abbreviations (`%b` of `strptime`). -/
def monthAbbrs : List String :=
  ["jan", "feb", "mar", "apr", "may", "jun", "jul", "aug", "sep", "oct", "nov", "dec"]

/-- Lowercase full month names (`%B` of `strptime`). -/
def monthFulls : List String :=
  ["january", "february", "march", "april", "may", "june", "july", "august",
   "september", "october", "november", "december"]

/-- Case-insensitive month-name prefix match, names numbered from `i`. -/
def parseMonthGo : List String → Nat → List Char → Option (Nat × List Char)
  | [], _, _ => none
  | n :: ns, i, cs =>
    if (cs.take n.data.length).map Char.toLower = n.data then some (i, cs.drop n.data.length)
    else parseMonthGo ns (i + 1) cs

/-- `strptime`'s `%d` field: `(3[01]|[12]\d|0[1-9]|[1-9])`. -/
def parseDayField : List Char → Option (Nat × List Char)
  | a :: b :: r =>
    if a = '3' ∧ (b = '0' ∨ b = '1') then some (30 + digitVal b, r)
    else if (a = '1' ∨ a = '2') ∧ b.isDigit then some (10 * digitVal a + digitVal b, r)
    else if a = '0' ∧ b.isDigit ∧ b ≠ '0' then some (digitVal b, r)
    else if a.isDigit ∧ a ≠ '0' then some (digitVal a, b :: r)
    else none
  | [a] => if a.isDigit ∧ a ≠ '0' then some (digitVal a, []) else none
  | [] => none

/-- `strptime`'s `%m` field: `(1[0-2]|0[1-9]|[1-9])`. -/
def parseMonthField : List Char → Option (Nat × List Char)
  | a :: b :: r =>
    if a = '1' ∧ (b = '0' ∨ b = '1' ∨ b = '2') then some (10 + digitVal b, r)
    else if a = '0' ∧ b.isDigit ∧ b ≠ '0' then some (digitVal b, r)
    else if a.isDigit ∧ a ≠ '0' then some (digitVal a, b :: r)
    else none
  | [a] => if a.isDigit ∧ a ≠ '0' then some (digitVal a, []) else none
  | [] => none

/-- `strptime`'s `%Y` field: exactly four digits. -/
def parseYear4 : List Char → Option (Nat × List Char)
  | a :: b :: c :: d :: r =>
    if a.isDigit ∧ b.isDigit ∧ c.isDigit ∧ d.isDigit then
      some (digitVal a * 1000 + digitVal b * 100 + digitVal c * 10 + digitVal d, r)
    else none
  | _ => none

/-- Whitespace in a `strptime` format string matches `\s+`. -/
def parseWs1 : List Char → Option (List Char)
  | c :: r => if isWs c then some (dropWs r) else none
  | [] => none

/-- `strptime` with format `"%b %d, %Y"` or `"%B %d, %Y"`. -/
def parseFmtMonthFirst (names : List String) (cs : List Char) : Option (Nat × Nat × Nat) :=
  match parseMonthGo names 1 cs with
  | none => none
  | some (m, r1) =>
    match parseWs1 r1 with
    | none => none
    | some r2 =>
      match parseDayField r2 with
      | none => none
      | some (d, r3) =>
        match r3 with
        | ',' :: r4 =>
          match parseWs1 r4 with
          | none => none
          | some r5 =>
            match parseYear4 r5 with
            | some (y, []) => some (y, m, d)
            | _ => none
        | _ => none

/-- `strptime` with format `"%Y-%m-%d"`. -/
def parseFmtIso (cs : List Char) : Option (Nat × Nat × Nat) :=
  match parseYear4 cs with
  | none => none
  | some (y, r1) =>
    match r1 with
    | '-' :: r2 =>
      match parseMonthField r2 with
      | none => none
      | some (m, r3) =>
        match r3 with
        | '-' :: r4 =>
          match parseDayField r4 with
          | some (d, []) => some (y, m, d)
          | _ => none
        | _ => none
    | _ => none

/-- `strptime` with format `"%d %b %Y"` or `"%d %B %Y"`. -/
def parseFmtDayFirst (names : List String) (cs : List Char) : Option (Nat × Nat × Nat) :=
  match parseDayField cs with
  | none => none
  | some (d, r1) =>
    match parseWs1 r1 with
    | none => none
    | some r2 =>
      match parseMonthGo names 1 r2 with
      | none => none
      | some (m, r3) =>
        match parseWs1 r3 with
        | none => none
        | some r4 =>
          match parseYear4 r4 with
          | some (y, []) => some (y, m, d)
          | _ => none

/-- First successful candidate, as the `for fmt in (...)` loop. -/
def firstSomeInt : List (Option Int) → Option Int
  | [] => none
  | some x :: _ => some x
  | none :: rest => firstSomeInt rest

/-- `_release_date_ms` from `main.py`: try the five formats in order; a format
whose syntactic match names an invalid calendar date raises inside `strptime`
and the loop continues with the next format. -/
def _release_date_ms (r : Row) : Option Int :=
  let s := pyStrip (r.steam_release_date.getD "").data
  if s = [] ∨ s = "—".data then none
  else
    firstSomeInt
      [(parseFmtMonthFirst monthAbbrs s).bind fun v => dateStartMs v.1 v.2.1 v.2.2,
       (parseFmtMonthFirst monthFulls s).bind fun v => dateStartMs v.1 v.2.1 v.2.2,
       (parseFmtIso s).bind fun v => dateStartMs v.1 v.2.1 v.2.2,
       (parseFmtDayFirst monthAbbrs s).bind fun v => dateStartMs v.1 v.2.1 v.2.2,
       (parseFmtDayFirst monthFulls s).bind fun v => dateStartMs v.1 v.2.1 v.2.2]

/-- Sort key of "Newest": `(_release_date_ms(r) is None, -(_release_date_ms(r) or 0))`. -/
def releaseNewestKey (r : Row) : Bool × Int :=
  ((_release_date_ms r).isNone, -((_release_date_ms r).getD 0))

/-- Sort key of "Oldest". -/
def releaseOldestKey (r : Row) : Bool × Int :=
  ((_release_date_ms r).isNone, (_release_date_ms r).getD 0)

/-- `_apply_release_date_filter` from `main.py` (same shape as the sale-end
filter, keyed on `_release_date_ms`). -/
def _apply_release_date_filter (rows : List Row) (filter_type value_str : String) :
    List Row :=
  if filter_type = "" ∨ filter_type = "All" then rows
  else if filter_type = "Newest" then
    rows.mergeSort fun r1 r2 => keyLeBoolInt (releaseNewestKey r1) (releaseNewestKey r2)
  else if filter_type = "Oldest" then
    rows.mergeSort fun r1 r2 => keyLeBoolInt (releaseOldestKey r1) (releaseOldestKey r2)
  else if filter_type = "By date" then
    let (mode, a, b) := parse_sale_end_value value_str
    if mode = "" then rows
    else if mode = "op" then
      match matchOpDate (pyStrip value_str.data) with
      | none => rows
      | some (op, y, m, d) =>
        match dateStartMs y m d with
        | none => rows
        | some start_ms =>
          let end_ms := start_ms + ONE_DAY_MS - 1
          let next_day_ms := start_ms + ONE_DAY_MS
          rows.filter fun r =>
            match _release_date_ms r with
            | none => false
            | some ms =>
              if op = "<" then decide (ms < start_ms)
              else if op = "<=" then decide (ms ≤ end_ms)
              else if op = ">" then decide (ms ≥ next_day_ms)
              else if op = ">=" then decide (ms ≥ start_ms)
              else if op = "==" then decide (start_ms ≤ ms ∧ ms ≤ end_ms)
              else if op = "!=" then !decide (start_ms ≤ ms ∧ ms ≤ end_ms)
              else false
    else if mode = "range" then
      match a, b with
      | some lo, some hi =>
        rows.filter fun r =>
          match _release_date_ms r with
          | none => false
          | some ms => decide (lo ≤ ms ∧ ms ≤ hi)
      | _, _ => rows
    else rows
  else rows

/-- `_apply_game_search_filter` from `main.py` (title substring). -/
def _apply_game_search_filter (rows : List Row) (query : String) : List Row :=
  let q := pyLower (pyStripS query)
  if q = "" then rows
  else rows.filter fun r => hasSub q.data (pyLower (pyStripS r.title)).data

/-- `_apply_publisher_filter` from `main.py`. -/
def _apply_publisher_filter (rows : List Row) (query : String) : List Row :=
  let q := pyLower (pyStripS query)
  if q = "" then rows
  else rows.filter fun r =>
    hasSub q.data (pyLower (pyStripS (r.steam_publisher.getD ""))).data

/-- `_apply_developer_filter` from `main.py`. -/
def _apply_developer_filter (rows : List Row) (query : String) : List Row :=
  let q := pyLower (pyStripS query)
  if q = "" then rows
  else rows.filter fun r =>
    hasSub q.data (pyLower (pyStripS (r.steam_developer.getD ""))).data

/-- `_apply_tags_filter` from `main.py`: any tag containing the query when the
field is a list, plain substring when it is a string (or absent). -/
def _apply_tags_filter (rows : List Row) (query : String) : List Row :=
  let q := pyLower (pyStripS query)
  if q = "" then rows
  else rows.filter fun r =>
    match r.steam_tags with
    | some (Sum.inl ts) => ts.any fun t => t ≠ "" && hasSub q.data (pyLower (pyStripS t)).data
    | some (Sum.inr s) => hasSub q.data (pyLower (pyStripS s)).data
    | none => hasSub q.data (pyLower (pyStripS "")).data

/-- `normalize_url` from `product_index.py`: strip, cut at the first `#`,
drop trailing slashes. -/
def normalize_url (url : String) : String :=
  let u := pyStrip url.data
  if u = [] then ""
  else String.mk ((u.takeWhile (· ≠ '#')).reverse.dropWhile (· = '/')).reverse

/-- A dedup key: normalized link, or the `("s", steam_app_id)` fallback. -/
inductive UsedKey where
  | link (s : String)
  | steamId (n : Int)
  deriving DecidableEq, Repr

/-- `_game_used_key` from `main.py`. -/
def _game_used_key (g : Row) : Option UsedKey :=
  let l := pyStripS g.link
  if l ≠ "" then some (.link (normalize_url l))
  else
    match g.steam_app_id with
    | some a => some (.steamId a)
    | none => none

/-- Scoring weight of the rating component. -/
def RATING_WEIGHT : ℝ := 0.25

/-- Scoring weight of the review-volume component. -/
def REVIEWS_WEIGHT : ℝ := 0.2

/-- Scoring weight of the discount component. -/
def DISCOUNT_WEIGHT : ℝ := 0.2

/-- Scoring weight of the owners component. -/
def OWNERS_WEIGHT : ℝ := 0.2

/-- Scoring weight of the concurrent-users component. -/
def CCU_WEIGHT : ℝ := 0.15

/-- `_game_pick_score` from `main.py` (`math.log10` is `Real.logb 10`). -/
noncomputable def _game_pick_score (g : Row) : ℝ :=
  let rating : ℝ := match g.steam_percent_positive with
    | some p => (p : ℝ) / 100
    | none => 0
  let rev := g.steam_total_reviews.getD 0
  let reviews : ℝ := if rev ≠ 0 then min 1 (Real.logb 10 (1 + (rev : ℝ)) / 6) else 0
  let discount : ℝ := min 1 (((_discount_pct g).getD 0 : ℝ) / 100)
  let owners := g.steamspy_owners_estimate.getD 0
  let owners_n : ℝ := if owners ≠ 0 then min 1 (Real.logb 10 (1 + (owners : ℝ)) / 8) else 0
  let ccu := g.steamspy_ccu.getD 0
  let ccu_n : ℝ := if ccu ≠ 0 then min 1 (Real.logb 10 (1 + (ccu : ℝ)) / 5) else 0
  RATING_WEIGHT * rating + REVIEWS_WEIGHT * reviews + DISCOUNT_WEIGHT * discount +
    OWNERS_WEIGHT * owners_n + CCU_WEIGHT * ccu_n

/-- The inner `for idx, (game, w) in enumerate(work): r -= w; if r <= 0: pop`
walk of `_weighted_sample`: pick the first element where the running draw is
exhausted and return it with the remaining work list. -/
def pickStep {α W : Type} [LinearOrderedField W] (r : W) :
    List (α × W) → Option (α × List (α × W))
  | [] => none
  | (g, w) :: rest =>
    if r - w ≤ 0 then some (g, rest)
    else
      match pickStep (r - w) rest with
      | some (g', rest') => some (g', (g, w) :: rest')
      | none => none

/-- The `work.pop(-1)` fallback of `_weighted_sample`. -/
def popLastPair {α W : Type} : List (α × W) → Option (α × List (α × W))
  | [] => none
  | [(g, _)] => some (g, [])
  | x :: y :: rest =>
    match popLastPair (y :: rest) with
    | some (g, l) => some (g, x :: l)
    | none => none

/-- The `for _ in range(n)` loop of `_weighted_sample`; `ρ` is the stream of
`random.random()` draws, `t` the index of the next draw. -/
def sampleLoop {α W : Type} [LinearOrderedField W] (ρ : Nat → W) :
    List (α × W) → Nat → Nat → List α
  | _, 0, _ => []
  | [], _ + 1, _ => []
  | work@(_ :: _), k + 1, t =>
    let total := (work.map Prod.snd).sum
    if total ≤ 0 then []
    else
      match pickStep (ρ t * total) work with
      | some (g, rest) => g :: sampleLoop ρ rest k (t + 1)
      | none =>
        match popLastPair work with
        | some (g, rest) => g :: sampleLoop ρ rest k (t + 1)
        | none => []

/-- The `max(1e-6, ...)` weight floor of `_weighted_sample`. -/
def SAMPLE_EPS (W : Type) [LinearOrderedField W] : W := 1 / 1000000

/-- `_weighted_sample` from `main.py`, parametrised over the weight field and
the random stream. -/
def _weighted_sample {α W : Type} [LinearOrderedField W] (games : List α) (n : Int)
    (score_fn : α → W) (ρ : Nat → W) (t : Nat) : List α :=
  if n ≤ 0 || games.isEmpty then []
  else if (games.length : Int) ≤ n then games
  else sampleLoop ρ (games.map fun g => (g, max (SAMPLE_EPS W) (score_fn g))) n.toNat t

/-- The loop of `resolve_urls_to_products` from `product_index.py`, carrying
the `seen_keys` set. -/
def resolveUrlsAux (index : List (String × Row)) :
    List String → List String → List Row × List String
  | [], _ => ([], [])
  | raw :: rest, seen =>
    let key := normalize_url raw
    if key = "" then resolveUrlsAux index rest seen
    else
      match index.lookup key with
      | some p =>
        if key ∈ seen then resolveUrlsAux index rest seen
        else
          let (ps, nf) := resolveUrlsAux index rest (key :: seen)
          (p :: ps, nf)
      | none =>
        let (ps, nf) := resolveUrlsAux index rest seen
        (ps, pyStripS raw :: nf)

/-- `resolve_urls_to_products` from `product_index.py`. -/
def resolve_urls_to_products (index : List (String × Row)) (pasted_urls : List String) :
    List Row × List String :=
  resolveUrlsAux index pasted_urls []

/-- The `link_to_game` dict of `_email_block_games` (comprehension: later
pool entries overwrite earlier ones). -/
def linkToGame (pool : List Row) (k : String) : Option Row :=
  ((pool.filter fun g => pyStripS g.link ≠ "").reverse).find? fun g =>
    normalize_url g.link = k

/-- The `id_to_game` dict of the `override_steam_ids` branch. -/
def idToGame (pool : List Row) (aid : Int) : Option Row :=
  ((pool.filter fun g => g.steam_app_id ≠ none).reverse).find? fun g =>
    g.steam_app_id = some aid

/-- A content block's `config` mapping (the keys the engine reads). -/
structure BlockConfig where
  games_count : Option Int
  publisher : Option String
  developer : Option String
  tags : Option String
  price_value : Option String
  discount_value : Option String
  override_urls : Option (List String)
  override_steam_ids : Option (List Int)
  override_url : Option String
  override_steam_id : Option Int
  deriving DecidableEq, Repr

/-- The `block.get("config") or {}` default. -/
def emptyConfig : BlockConfig :=
  ⟨none, none, none, none, none, none, none, none, none, none⟩

/-- A content block. -/
structure Block where
  type : Option String
  config : Option BlockConfig
  deriving DecidableEq, Repr

/-- Python truthiness of an optional list value. -/
def truthyList {β : Type} : Option (List β) → Bool
  | some (_ :: _) => true
  | _ => false

/-- `int((cfg.get("games_count") or 4))`: absent and `0` are falsy. -/
def gamesCountVal : Option Int → Int
  | none => 4
  | some 0 => 4
  | some k => k

/-- The five config filters plus the used-set filter that both the
`deal_list` and the `featured` sampled branches of `_email_block_games`
repeat inline (`_game_used_key(g) not in used`; an unkeyable row always
passes). -/
def blockFilteredPool (pool : List Row) (currency : String) (cfg : BlockConfig)
    (used : List UsedKey) : List Row :=
  let f1 := _apply_publisher_filter pool (pyStripS (cfg.publisher.getD ""))
  let f2 := _apply_developer_filter f1 (pyStripS (cfg.developer.getD ""))
  let f3 := _apply_tags_filter f2 (pyStripS (cfg.tags.getD ""))
  let f4 := apply_price_filter f3 (pyStripS (cfg.price_value.getD "")) currency
  let f5 := apply_discount_filter f4 (pyStripS (cfg.discount_value.getD ""))
  f5.filter fun g =>
    match _game_used_key g with
    | none => true
    | some k => decide (k ∉ used)

/-- One iteration of the block loop of `_email_block_games`: the block's
assignment, the used set after the `for g in result[i] or []` key-adding
loop, and the new random-stream cursor. -/
def blockAssign {W : Type} [LinearOrderedField W] (pool : List Row)
    (index : Option (List (String × Row))) (currency : String) (score_fn : Row → W)
    (ρ : Nat → W) (b : Block) (used : List UsedKey) (t : Nat) :
    Option (List Row) × List UsedKey × Nat :=
  let btype := pyLower (pyStripS (b.type.getD ""))
  if btype ≠ "deal_list" ∧ btype ≠ "featured" then (none, used, t)
  else
    let cfg := b.config.getD emptyConfig
    let games_t : List Row × Nat :=
      if btype = "deal_list" then
        if truthyList cfg.override_urls && index.isSome then
          let products := (resolve_urls_to_products (index.getD []) (cfg.override_urls.getD [])).1
          (products.filterMap fun p => linkToGame pool (normalize_url p.link), t)
        else if truthyList cfg.override_steam_ids then
          ((cfg.override_steam_ids.getD []).filterMap fun aid => idToGame pool aid, t)
        else
          let filtered := blockFilteredPool pool currency cfg used
          let n := max 0 (gamesCountVal cfg.games_count)
          let res := _weighted_sample filtered n score_fn ρ t
          (res, t + res.length)
      else
        let override_url := pyStripS (cfg.override_url.getD "")
        if decide (override_url ≠ "") && index.isSome then
          let products := (resolve_urls_to_products (index.getD []) [override_url]).1
          match products with
          | p :: _ =>
            match linkToGame pool (normalize_url p.link) with
            | some g => ([g], t)
            | none => ([], t)
          | [] => ([], t)
        else if cfg.override_steam_id.isSome then
          let found := pool.filter fun g => g.steam_app_id = cfg.override_steam_id
          (found.take 1, t)
        else
          let filtered := blockFilteredPool pool currency cfg used
          let res := _weighted_sample filtered 1 score_fn ρ t
          (res, t + res.length)
    (some games_t.1, used ++ games_t.1.filterMap _game_used_key, games_t.2)

/-- The block loop of `_email_block_games`, also recording each block's
used-set snapshot (the Python set is observed through membership only, so it
is carried as the list of added keys). -/
def emailBlocksAux {W : Type} [LinearOrderedField W] (pool : List Row)
    (index : Option (List (String × Row))) (currency : String) (score_fn : Row → W)
    (ρ : Nat → W) : List Block → List UsedKey → Nat →
    List (Option (List Row) × List UsedKey)
  | [], _, _ => []
  | b :: bs, used, t =>
    let r := blockAssign pool index currency score_fn ρ b used t
    (r.1, r.2.1) :: emailBlocksAux pool index currency score_fn ρ bs r.2.1 r.2.2

/-- `_email_block_games` from `main.py` with the score function and random
stream abstracted over an arbitrary ordered field. -/
def emailBlockGames {W : Type} [LinearOrderedField W] (blocks : List Block)
    (pool : List Row) (index : Option (List (String × Row))) (currency : String)
    (score_fn : Row → W) (ρ : Nat → W) : List (Option (List Row)) :=
  (emailBlocksAux pool index currency score_fn ρ blocks [] 0).map Prod.fst

/-- `_email_block_games` at its concrete score function `_game_pick_score`. -/
noncomputable def _email_block_games (blocks : List Block) (pool : List Row)
    (index : Option (List (String × Row))) (currency : String) (ρ : Nat → ℝ) :
    List (Option (List Row)) :=
  emailBlockGames blocks pool index currency _game_pick_score ρ

/-- The dedup keys of one block's assignment. -/
def assignedKeys (res : Option (List Row)) : List UsedKey :=
  (res.getD []).filterMap _game_used_key

/-- Whether the engine assigns this block through the sampling path (no
manual override), given whether an index was passed. -/
def isSampledPath (b : Block) (hasIndex : Bool) : Bool :=
  let btype := pyLower (pyStripS (b.type.getD ""))
  let cfg := b.config.getD emptyConfig
  if btype = "deal_list" then
    !(truthyList cfg.override_urls && hasIndex) && !truthyList cfg.override_steam_ids
  else if btype = "featured" then
    !(decide (pyStripS (cfg.override_url.getD "") ≠ "") && hasIndex) &&
      !cfg.override_steam_id.isSome
  else false

/-- Combined requested count of the `deal_list`/`featured` blocks. -/
def requestedCount : List Block → Nat
  | [] => 0
  | b :: bs =>
    let btype := pyLower (pyStripS (b.type.getD ""))
    let cfg := b.config.getD emptyConfig
    (if btype = "deal_list" then (max 0 (gamesCountVal cfg.games_count)).toNat
     else if btype = "featured" then 1
     else 0) + requestedCount bs

/-! ### List and character helper lemmas -/

theorem leadsList_nil (l : List Char) : leadsList [] l = true := rfl

theorem leadsList_cons_nil (a : Char) (as : List Char) : leadsList (a :: as) [] = false := rfl

theorem leadsList_cons_cons (a b : Char) (as bs : List Char) :
    leadsList (a :: as) (b :: bs) = (decide (a = b) && leadsList as bs) := rfl

theorem leadsList_iff_exists {p cs : List Char} :
    leadsList p cs = true ↔ ∃ r, cs = p ++ r := by
  induction p generalizing cs with
  | nil => simp [leadsList_nil]
  | cons a as ih =>
    cases cs with
    | nil =>
      simp only [leadsList_cons_nil, List.cons_append]
      constructor
      · intro h; cases h
      · rintro ⟨r, h⟩; cases h
    | cons b bs =>
      rw [leadsList_cons_cons]
      constructor
      · intro h
        have hab : a = b := by
          by_contra hne
          simp [hne] at h
        obtain ⟨r, hr⟩ := ih.mp (by simpa [hab] using h)
        exact ⟨r, by simp [hab, hr]⟩
      · rintro ⟨r, hr⟩
        obtain ⟨h1, h2⟩ := by simpa using hr
        subst h1
        simp [ih.mpr ⟨r, h2⟩]

theorem leadsList_self_append (p r : List Char) : leadsList p (p ++ r) = true :=
  leadsList_iff_exists.mpr ⟨r, rfl⟩

theorem dropWhile_append_of_forall {α : Type} {p : α → Bool} {w l : List α}
    (hw : ∀ c ∈ w, p c = true) : (w ++ l).dropWhile p = l.dropWhile p := by
  induction w with
  | nil => rfl
  | cons a w ih =>
    rw [List.cons_append, List.dropWhile_cons, if_pos (hw a (by simp))]
    exact ih fun c hc => hw c (by simp [hc])

theorem dropWhile_cons_of_neg {α : Type} {p : α → Bool} {c : α} {l : List α}
    (h : p c = false) : (c :: l).dropWhile p = c :: l := by
  rw [List.dropWhile_cons, if_neg (by simp [h])]

theorem takeWhile_append_of_forall {α : Type} {p : α → Bool} {w : List α} {c : α}
    {l : List α} (hw : ∀ x ∈ w, p x = true) (hc : p c = false) :
    (w ++ c :: l).takeWhile p = w := by
  induction w with
  | nil => simpa [List.takeWhile_cons] using hc
  | cons a w ih =>
    rw [List.cons_append, List.takeWhile_cons, if_pos (hw a (by simp))]
    rw [ih fun x hx => hw x (by simp [hx])]

theorem takeWhile_eq_self_of_forall {α : Type} {p : α → Bool} {l : List α}
    (h : ∀ x ∈ l, p x = true) : l.takeWhile p = l := by
  induction l with
  | nil => rfl
  | cons a l ih =>
    rw [List.takeWhile_cons, if_pos (h a (by simp))]
    rw [ih fun x hx => h x (by simp [hx])]

theorem dropWhile_eq_nil_of_forall {α : Type} {p : α → Bool} {l : List α}
    (h : ∀ x ∈ l, p x = true) : l.dropWhile p = [] := by
  induction l with
  | nil => rfl
  | cons a l ih =>
    rw [List.dropWhile_cons, if_pos (h a (by simp))]
    exact ih fun x hx => h x (by simp [hx])

/-- Every list splits as its whitespace prefix plus `dropWs` of itself. -/
theorem dropWs_decomp (l : List Char) :
    ∃ w, l = w ++ dropWs l ∧ ∀ c ∈ w, isWs c = true :=
  ⟨l.takeWhile isWs, (List.takeWhile_append_dropWhile isWs l).symm,
    fun _ hc => List.mem_takeWhile_imp hc⟩

theorem dropWs_append_cons {w : List Char} {c : Char} {l : List Char}
    (hw : ∀ x ∈ w, isWs x = true) (hc : isWs c = false) :
    dropWs (w ++ c :: l) = c :: l := by
  unfold dropWs
  rw [dropWhile_append_of_forall hw, dropWhile_cons_of_neg hc]

/-- A whitespace character is not a decimal digit. -/
theorem isWs_isDigit_false {c : Char} (h : isWs c = true) : c.isDigit = false := by
  simp only [isWs, Bool.or_eq_true, decide_eq_true_eq] at h
  rcases h with ((((h | h) | h) | h) | h) | h <;> subst h <;> decide

/-- A digit character is not whitespace. -/
theorem isDigit_isWs_false {c : Char} (h : c.isDigit = true) : isWs c = false := by
  cases hws : isWs c with
  | false => rfl
  | true => rw [isWs_isDigit_false hws] at h; cases h

/-! ### The date-token matcher -/

/-- Spec-side reading of a `\d{4}-\d{2}-\d{2}` token with its numeric value. -/
def IsDateTok (cs : List Char) (y m d : Nat) : Prop :=
  ∃ a b c e f g h i : Char,
    cs = [a, b, c, e, '-', f, g, '-', h, i] ∧
    (a.isDigit ∧ b.isDigit ∧ c.isDigit ∧ e.isDigit ∧
      f.isDigit ∧ g.isDigit ∧ h.isDigit ∧ i.isDigit) ∧
    y = digitVal a * 1000 + digitVal b * 100 + digitVal c * 10 + digitVal e ∧
    m = digitVal f * 10 + digitVal g ∧
    d = digitVal h * 10 + digitVal i

theorem matchDate_eq_some_iff {cs : List Char} {y m d : Nat} :
    matchDate cs = some (y, m, d) ↔ IsDateTok cs y m d := by
  constructor
  · intro hm
    unfold matchDate at hm
    split at hm
    next a b c e h1 f g h2 h i =>
      split_ifs at hm with hcond
      obtain ⟨ha, hb, hc, he, hh1, hf, hg, hh2, hh, hi⟩ := hcond
      obtain ⟨hy, hmm, hd⟩ := by simpa using hm
      subst hh1; subst hh2
      exact ⟨a, b, c, e, f, g, h, i, rfl, ⟨ha, hb, hc, he, hf, hg, hh, hi⟩,
        hy.symm, hmm.symm, hd.symm⟩
    next => cases hm
  · rintro ⟨a, b, c, e, f, g, h, i, rfl, ⟨ha, hb, hc, he, hf, hg, hh, hi⟩, rfl, rfl, rfl⟩
    simp [matchDate, ha, hb, hc, he, hf, hg, hh, hi]

/-- The first character of a date token is a digit. -/
theorem dateTok_head_digit {cs : List Char} {y m d : Nat} (h : IsDateTok cs y m d) :
    ∃ a rest, cs = a :: rest ∧ a.isDigit = true := by
  obtain ⟨a, b, c, e, f, g, hh, i, rfl, hdig, -⟩ := h
  exact ⟨a, _, rfl, hdig.1⟩

theorem dateTok_length {cs : List Char} {y m d : Nat} (h : IsDateTok cs y m d) :
    cs.length = 10 := by
  obtain ⟨a, b, c, e, f, g, hh, i, rfl, -⟩ := h
  rfl

/-! ### The range form -/

/-- Spec-side reading of the range form: two date tokens joined by `..` or a
case-insensitive `to`, with arbitrary whitespace around the separator. -/
def IsRangeSplit (cs : List Char) (y1 m1 d1 y2 m2 d2 : Nat) : Prop :=
  ∃ dt1 w1 c1 c2 w2 dt2,
    cs = dt1 ++ w1 ++ c1 :: c2 :: (w2 ++ dt2) ∧
    IsDateTok dt1 y1 m1 d1 ∧ IsDateTok dt2 y2 m2 d2 ∧
    (∀ c ∈ w1, isWs c = true) ∧ (∀ c ∈ w2, isWs c = true) ∧
    ((c1 = '.' ∧ c2 = '.') ∨ (c1.toLower = 't' ∧ c2.toLower = 'o'))

/-- The separator's first character is not whitespace. -/
theorem sep_not_ws {c1 c2 : Char}
    (h : (c1 = '.' ∧ c2 = '.') ∨ (c1.toLower = 't' ∧ c2.toLower = 'o')) :
    isWs c1 = false := by
  cases hws : isWs c1 with
  | false => rfl
  | true =>
    exfalso
    simp only [isWs, Bool.or_eq_true, decide_eq_true_eq] at hws
    rcases h with ⟨h1, -⟩ | ⟨h1, -⟩ <;>
      rcases hws with ((((hc | hc) | hc) | hc) | hc) | hc <;> subst hc <;> simp at h1

theorem matchRange_eq_some_iff {cs : List Char} {y1 m1 d1 y2 m2 d2 : Nat} :
    matchRange cs = some ((y1, m1, d1), (y2, m2, d2)) ↔
      IsRangeSplit cs y1 m1 d1 y2 m2 d2 := by
  constructor
  · intro hm
    unfold matchRange at hm
    split at hm
    next => cases hm
    next dt1v heq1 =>
      split at hm
      next c1 c2 r2 heq2 =>
        split_ifs at hm with hsep
        split at hm
        next d2v heq3 =>
          obtain ⟨hv1, hv2⟩ : dt1v = (y1, m1, d1) ∧ d2v = (y2, m2, d2) := by
            constructor <;> [skip; skip] <;> injection hm with hm' <;>
              simp_all
          subst hv1; subst hv2
          have h1 : IsDateTok (cs.take 10) y1 m1 d1 := matchDate_eq_some_iff.mp heq1
          have h2 : IsDateTok (dropWs r2) y2 m2 d2 := matchDate_eq_some_iff.mp heq3
          obtain ⟨w1, hw1eq, hw1⟩ := dropWs_decomp (cs.drop 10)
          obtain ⟨w2, hw2eq, hw2⟩ := dropWs_decomp r2
          refine ⟨cs.take 10, w1, c1, c2, w2, dropWs r2, ?_, h1, h2, hw1, hw2, hsep⟩
          conv_lhs => rw [← List.take_append_drop 10 cs]
          rw [hw1eq, heq2, hw2eq]
          simp only [List.append_assoc, List.cons_append, List.append_cancel_left_eq,
            List.cons.injEq, true_and]
          obtain ⟨a, rest, hshape, hdig⟩ := dateTok_head_digit h2
          rw [hshape, dropWs_append_cons hw2 (isDigit_isWs_false hdig)]
        next => cases hm
      next => cases hm
  · rintro ⟨dt1, w1, c1, c2, w2, dt2, rfl, h1, h2, hw1, hw2, hsep⟩
    have hlen1 : dt1.length = 10 := dateTok_length h1
    have htake : (dt1 ++ w1 ++ c1 :: c2 :: (w2 ++ dt2)).take 10 = dt1 := by
      rw [List.append_assoc]; exact List.take_left' hlen1
    have hdrop : (dt1 ++ w1 ++ c1 :: c2 :: (w2 ++ dt2)).drop 10 =
        w1 ++ c1 :: c2 :: (w2 ++ dt2) := by
      rw [List.append_assoc]; exact List.drop_left' hlen1
    have hdw2 : dropWs (w2 ++ dt2) = dt2 := by
      obtain ⟨a, rest, hdt2, hdig⟩ := dateTok_head_digit h2
      rw [hdt2]; exact dropWs_append_cons hw2 (isDigit_isWs_false hdig)
    have hmd2 : matchDate dt2 = some (y2, m2, d2) := matchDate_eq_some_iff.mpr h2
    unfold matchRange
    rw [htake, matchDate_eq_some_iff.mpr h1, hdrop,
      dropWs_append_cons hw1 (sep_not_ws hsep)]
    simp only []
    rw [if_pos hsep, hdw2, hmd2]

/-! ### The operator forms -/

/-- The operator alternatives of the `(>=?|<=?|==?|!=)` group. -/
def opStrings : List String := [">", ">=", "<", "<=", "==", "=", "!="]

theorem data_gt : (">" : String).data = ['>'] := rfl

theorem data_ge : (">=" : String).data = ['>', '='] := rfl

theorem data_lt : ("<" : String).data = ['<'] := rfl

theorem data_le : ("<=" : String).data = ['<', '='] := rfl

theorem data_eq2 : ("==" : String).data = ['=', '='] := rfl

theorem data_eq1 : ("=" : String).data = ['='] := rfl

theorem data_ne : ("!=" : String).data = ['!', '='] := rfl

/-- After an operator the regexes continue with `\s*` and then a digit, so
the remaining text never starts with `=`. -/
theorem wsDigit_head {w tail : List Char} (hw : ∀ c ∈ w, isWs c = true)
    {a : Char} {rest : List Char} (ht : tail = a :: rest) (ha : a.isDigit = true) :
    ∃ x xs, w ++ tail = x :: xs ∧ x ≠ '=' := by
  cases w with
  | nil =>
    refine ⟨a, rest, by simp [ht], fun hx => ?_⟩
    subst hx
    simp at ha
  | cons c w' =>
    refine ⟨c, w' ++ tail, by simp, fun hx => ?_⟩
    have hc := hw c (by simp)
    subst hx
    simp [isWs] at hc

theorem matchOpSplit_eq_some {cs : List Char} {op : String} {r : List Char}
    (h : matchOpSplit cs = some (op, r)) : cs = op.data ++ r ∧ op ∈ opStrings := by
  unfold matchOpSplit at h
  split_ifs at h with h1 h2 h3 h4 h5 h6 h7 <;> cases h <;>
    [obtain ⟨rr, rfl⟩ := leadsList_iff_exists.mp h1;
     obtain ⟨rr, rfl⟩ := leadsList_iff_exists.mp h2;
     obtain ⟨rr, rfl⟩ := leadsList_iff_exists.mp h3;
     obtain ⟨rr, rfl⟩ := leadsList_iff_exists.mp h4;
     obtain ⟨rr, rfl⟩ := leadsList_iff_exists.mp h5;
     obtain ⟨rr, rfl⟩ := leadsList_iff_exists.mp h6;
     obtain ⟨rr, rfl⟩ := leadsList_iff_exists.mp h7] <;>
    exact ⟨by simp [data_gt, data_ge, data_lt, data_le, data_eq2, data_eq1, data_ne],
      by simp [opStrings]⟩

theorem matchOpSplit_complete {op : String} (hop : op ∈ opStrings) {rest : List Char}
    (hrest : ∃ x xs, rest = x :: xs ∧ x ≠ '=') :
    matchOpSplit (op.data ++ rest) = some (op, rest) := by
  obtain ⟨x, xs, rfl, hx⟩ := hrest
  have hx' : ('=' = x) = False := by
    simp only [eq_iff_iff, iff_false]
    exact fun hc => hx hc.symm
  fin_cases hop <;>
    simp [matchOpSplit, data_gt, data_ge, data_lt, data_le, data_eq2, data_eq1,
      data_ne, leadsList_cons_cons, leadsList_nil, hx']

/-- Spec-side reading of the operator-plus-date form. -/
def IsOpDateSplit (cs : List Char) (op : String) (y m d : Nat) : Prop :=
  ∃ w dt, cs = op.data ++ w ++ dt ∧ op ∈ opStrings ∧
    (∀ c ∈ w, isWs c = true) ∧ IsDateTok dt y m d

theorem matchOpDate_eq_some_iff {cs : List Char} {op : String} {y m d : Nat} :
    matchOpDate cs = some (op, (y, m, d)) ↔ IsOpDateSplit cs op y m d := by
  constructor
  · intro h
    unfold matchOpDate at h
    split at h
    next op' r heq =>
      split at h
      next dv heq2 =>
        cases h
        obtain ⟨hcs, hop⟩ := matchOpSplit_eq_some heq
        obtain ⟨w, hw_eq, hw⟩ := dropWs_decomp r
        refine ⟨w, dropWs r, ?_, hop, hw, matchDate_eq_some_iff.mp heq2⟩
        rw [hcs]
        conv_lhs => rw [hw_eq]
        simp [List.append_assoc]
      next => cases h
    next => cases h
  · rintro ⟨w, dt, rfl, hop, hw, hdt⟩
    obtain ⟨a, rest, hsh, hdig⟩ := dateTok_head_digit hdt
    have hsplit : matchOpSplit (op.data ++ (w ++ dt)) = some (op, w ++ dt) :=
      matchOpSplit_complete hop (wsDigit_head hw hsh hdig)
    have hdw : dropWs (w ++ dt) = dt := by
      rw [hsh]; exact dropWs_append_cons hw (isDigit_isWs_false hdig)
    simp only [matchOpDate, List.append_assoc, hsplit, hdw,
      matchDate_eq_some_iff.mpr hdt]

/-- Spec-side reading of the operator-plus-integer form. -/
def IsOpNumSplit (cs : List Char) (op : String) (ds : List Char) : Prop :=
  ∃ w, cs = op.data ++ w ++ ds ∧ op ∈ opStrings ∧
    (∀ c ∈ w, isWs c = true) ∧ ds ≠ [] ∧ ∀ c ∈ ds, c.isDigit = true

theorem matchOpNum_eq_some_iff {cs : List Char} {op : String} {n : Nat} :
    matchOpNum cs = some (op, n) ↔
      ∃ ds, IsOpNumSplit cs op ds ∧ n = digitsToNat ds := by
  constructor
  · intro h
    unfold matchOpNum at h
    split at h
    next op' r heq =>
      simp only [] at h
      split_ifs at h with hcond
      cases h
      obtain ⟨hne, hdig⟩ := hcond
      obtain ⟨hcs, hop⟩ := matchOpSplit_eq_some heq
      obtain ⟨w, hw_eq, hw⟩ := dropWs_decomp r
      refine ⟨dropWs r, ⟨w, ?_, hop, hw, hne, fun c hc => List.all_eq_true.mp hdig c hc⟩, rfl⟩
      rw [hcs]
      conv_lhs => rw [hw_eq]
      simp [List.append_assoc]
    next => cases h
  · rintro ⟨ds, ⟨w, rfl, hop, hw, hne, hdig⟩, rfl⟩
    obtain ⟨a, rest, hsh⟩ : ∃ a rest, ds = a :: rest := by
      cases ds with
      | nil => exact absurd rfl hne
      | cons a rest => exact ⟨a, rest, rfl⟩
    have hda : a.isDigit = true := hdig a (by rw [hsh]; simp)
    have hsplit : matchOpSplit (op.data ++ (w ++ ds)) = some (op, w ++ ds) :=
      matchOpSplit_complete hop (wsDigit_head hw hsh hda)
    have hdw : dropWs (w ++ ds) = ds := by
      rw [hsh]; exact dropWs_append_cons hw (isDigit_isWs_false hda)
    simp only [matchOpNum, List.append_assoc, hsplit, hdw]
    rw [if_pos ⟨hne, List.all_eq_true.mpr hdig⟩]

/-- Spec-side reading of a `\d+(?:\.\d+)?` token and its decimal value. -/
def IsDecTok (ds : List Char) (q : ℚ) : Prop :=
  (ds ≠ [] ∧ (∀ c ∈ ds, c.isDigit = true) ∧ q = (digitsToNat ds : ℚ)) ∨
  (∃ ip fp, ds = ip ++ '.' :: fp ∧ ip ≠ [] ∧ fp ≠ [] ∧
    (∀ c ∈ ip, c.isDigit = true) ∧ (∀ c ∈ fp, c.isDigit = true) ∧
    q = (digitsToNat ip : ℚ) + (digitsToNat fp : ℚ) / (10 : ℚ) ^ fp.length)

theorem decTok_head_digit {ds : List Char} {q : ℚ} (h : IsDecTok ds q) :
    ∃ a rest, ds = a :: rest ∧ a.isDigit = true := by
  rcases h with ⟨hne, hdig, -⟩ | ⟨ip, fp, rfl, hipne, -, hip, -, -⟩
  · cases ds with
    | nil => exact absurd rfl hne
    | cons a rest => exact ⟨a, rest, rfl, hdig a (by simp)⟩
  · cases ip with
    | nil => exact absurd rfl hipne
    | cons a rest => exact ⟨a, rest ++ '.' :: fp, by simp, hip a (by simp)⟩

theorem matchDecimal_eq_some_iff {ds : List Char} {q : ℚ} :
    matchDecimal ds = some q ↔ IsDecTok ds q := by
  constructor
  · intro h
    unfold matchDecimal at h
    split_ifs at h with hip
    split at h
    next heq =>
      cases h
      have hds : ds.takeWhile Char.isDigit = ds := by
        conv_rhs => rw [← List.takeWhile_append_dropWhile Char.isDigit ds]
        rw [heq, List.append_nil]
      refine Or.inl ⟨fun hcon => hip (by rw [hcon]; rfl), ?_, by rw [hds]⟩
      intro c hc
      exact List.mem_takeWhile_imp (hds.symm ▸ hc)
    next fp heq =>
      split_ifs at h with hcond
      cases h
      obtain ⟨hfpne, hfp⟩ := hcond
      refine Or.inr ⟨ds.takeWhile Char.isDigit, fp, ?_, hip, hfpne,
        fun c hc => List.mem_takeWhile_imp hc, fun c hc => List.all_eq_true.mp hfp c hc,
        rfl⟩
      conv_lhs => rw [← List.takeWhile_append_dropWhile Char.isDigit ds]
      rw [heq]
    next => cases h
  · rintro (⟨hne, hdig, rfl⟩ | ⟨ip, fp, rfl, hipne, hfpne, hip, hfp, rfl⟩)
    · have ht : ds.takeWhile Char.isDigit = ds := takeWhile_eq_self_of_forall hdig
      have hd : ds.dropWhile Char.isDigit = [] := dropWhile_eq_nil_of_forall hdig
      simp only [matchDecimal, ht, hd, if_neg hne]
    · have hdotdig : ('.').isDigit = false := rfl
      have ht : (ip ++ '.' :: fp).takeWhile Char.isDigit = ip :=
        takeWhile_append_of_forall hip hdotdig
      have hd : (ip ++ '.' :: fp).dropWhile Char.isDigit = '.' :: fp := by
        rw [dropWhile_append_of_forall hip, dropWhile_cons_of_neg hdotdig]
      simp only [matchDecimal, ht, hd, if_neg hipne]
      rw [if_pos ⟨hfpne, List.all_eq_true.mpr hfp⟩]

/-- Spec-side reading of the operator-plus-decimal form. -/
def IsOpRatSplit (cs : List Char) (op : String) (q : ℚ) : Prop :=
  ∃ w ds, cs = op.data ++ w ++ ds ∧ op ∈ opStrings ∧
    (∀ c ∈ w, isWs c = true) ∧ IsDecTok ds q

theorem matchOpRat_eq_some_iff {cs : List Char} {op : String} {q : ℚ} :
    matchOpRat cs = some (op, q) ↔ IsOpRatSplit cs op q := by
  constructor
  · intro h
    unfold matchOpRat at h
    split at h
    next op' r heq =>
      split at h
      next q' heq2 =>
        cases h
        obtain ⟨hcs, hop⟩ := matchOpSplit_eq_some heq
        obtain ⟨w, hw_eq, hw⟩ := dropWs_decomp r
        refine ⟨w, dropWs r, ?_, hop, hw, matchDecimal_eq_some_iff.mp heq2⟩
        rw [hcs]
        conv_lhs => rw [hw_eq]
        simp [List.append_assoc]
      next => cases h
    next => cases h
  · rintro ⟨w, ds, rfl, hop, hw, hdec⟩
    obtain ⟨a, rest, hsh, hdig⟩ := decTok_head_digit hdec
    have hsplit : matchOpSplit (op.data ++ (w ++ ds)) = some (op, w ++ ds) :=
      matchOpSplit_complete hop (wsDigit_head hw hsh hdig)
    have hdw : dropWs (w ++ ds) = ds := by
      rw [hsh]; exact dropWs_append_cons hw (isDigit_isWs_false hdig)
    simp only [matchOpRat, List.append_assoc, hsplit, hdw,
      matchDecimal_eq_some_iff.mpr hdec]

theorem rangeSplit_ne_nil {cs : List Char} {y1 m1 d1 y2 m2 d2 : Nat}
    (h : IsRangeSplit cs y1 m1 d1 y2 m2 d2) : cs ≠ [] := by
  obtain ⟨dt1, w1, c1, c2, w2, dt2, rfl, h1, -⟩ := h
  obtain ⟨a, rest, hsh, -⟩ := dateTok_head_digit h1
  rw [hsh]
  simp

theorem opDateSplit_ne_nil {cs : List Char} {op : String} {y m d : Nat}
    (h : IsOpDateSplit cs op y m d) : cs ≠ [] := by
  obtain ⟨w, dt, rfl, hop, -⟩ := h
  fin_cases hop <;> simp [data_gt, data_ge, data_lt, data_le, data_eq2, data_eq1, data_ne]

/-- A string in operator form never matches the range regex: its first
character is not a digit. -/
theorem matchRange_eq_none_of_opsplit {cs : List Char} {op : String} {y m d : Nat}
    (h : IsOpDateSplit cs op y m d) : matchRange cs = none := by
  obtain ⟨w, dt, rfl, hop, hw, hdt⟩ := h
  obtain ⟨c, rest, hsh, hdig⟩ :
      ∃ c rest, op.data ++ w ++ dt = c :: rest ∧ c.isDigit = false := by
    fin_cases hop
    · exact ⟨'>', w ++ dt, by simp [data_gt], by decide⟩
    · exact ⟨'>', '=' :: (w ++ dt), by simp [data_ge], by decide⟩
    · exact ⟨'<', w ++ dt, by simp [data_lt], by decide⟩
    · exact ⟨'<', '=' :: (w ++ dt), by simp [data_le], by decide⟩
    · exact ⟨'=', '=' :: (w ++ dt), by simp [data_eq2], by decide⟩
    · exact ⟨'=', w ++ dt, by simp [data_eq1], by decide⟩
    · exact ⟨'!', '=' :: (w ++ dt), by simp [data_ne], by decide⟩
  rw [hsh]
  have hmd : matchDate ((c :: rest).take 10) = none := by
    cases hv : matchDate ((c :: rest).take 10) with
    | none => rfl
    | some v =>
      exfalso
      obtain ⟨y1, m1, d1⟩ := v
      obtain ⟨a, r2, hshape, hd⟩ := dateTok_head_digit (matchDate_eq_some_iff.mp hv)
      have htake : (c :: rest).take 10 = c :: rest.take 9 := rfl
      rw [htake] at hshape
      obtain ⟨rfl, -⟩ := by simpa using hshape
      rw [hd] at hdig
      cases hdig
  unfold matchRange
  rw [hmd]

/-! ### The parser's four behaviours -/

theorem parse_of_empty {s : String} (hs : pyStrip s.data = []) :
    parse_sale_end_value s = ("", none, none) := by
  simp only [parse_sale_end_value, if_pos hs]

theorem parse_of_rangeSplit {s : String} {y1 m1 d1 y2 m2 d2 : Nat}
    (hsplit : IsRangeSplit (pyStrip s.data) y1 m1 d1 y2 m2 d2) :
    parse_sale_end_value s =
      match dateStartMs y1 m1 d1, dateEndMs y2 m2 d2 with
      | some lo, some hi =>
        if lo ≤ hi then ("range", some lo, some hi) else ("", none, none)
      | _, _ => ("", none, none) := by
  simp only [parse_sale_end_value, if_neg (rangeSplit_ne_nil hsplit),
    matchRange_eq_some_iff.mpr hsplit]

theorem parse_of_opSplit {s : String} {op : String} {y m d : Nat}
    (hop : IsOpDateSplit (pyStrip s.data) op y m d) :
    parse_sale_end_value s =
      match dateEndMs y m d with
      | some ms => ("op", some ms, none)
      | none => ("", none, none) := by
  simp only [parse_sale_end_value, if_neg (opDateSplit_ne_nil hop),
    matchRange_eq_none_of_opsplit hop, matchOpDate_eq_some_iff.mpr hop]

theorem parse_of_neither {s : String}
    (hnr : ¬ ∃ y1 m1 d1 y2 m2 d2, IsRangeSplit (pyStrip s.data) y1 m1 d1 y2 m2 d2)
    (hno : ¬ ∃ op y m d, IsOpDateSplit (pyStrip s.data) op y m d) :
    parse_sale_end_value s = ("", none, none) := by
  by_cases hs : pyStrip s.data = []
  · simp only [parse_sale_end_value, if_pos hs]
  · have hr : matchRange (pyStrip s.data) = none := by
      cases hv : matchRange (pyStrip s.data) with
      | none => rfl
      | some v =>
        obtain ⟨⟨y1, m1, d1⟩, ⟨y2, m2, d2⟩⟩ := v
        exact absurd ⟨y1, m1, d1, y2, m2, d2, matchRange_eq_some_iff.mp hv⟩ hnr
    have ho : matchOpDate (pyStrip s.data) = none := by
      cases hv : matchOpDate (pyStrip s.data) with
      | none => rfl
      | some v =>
        obtain ⟨op, ⟨y, m, d⟩⟩ := v
        exact absurd ⟨op, y, m, d, matchOpDate_eq_some_iff.mp hv⟩ hno
    simp only [parse_sale_end_value, if_neg hs, hr, ho]

/-! ### Claim C3: the date/operator parser -/

/-- **C3.** `parse_sale_end_value` on an arbitrary input string: empty or
whitespace-only input and any text in neither grammar form gives the no-filter
mode `""`; a range split of the stripped text gives mode `"range"` with
start-of-day UTC ms of the first date and end-of-day UTC ms of the second,
degrading to mode `""` on an invalid calendar date or an inverted range
(`boundA > boundB`); an operator split gives mode `"op"` with end-of-day UTC
ms of its date, degrading to `""` on an invalid date. The parser is a total
function, so no exception can escape it. -/
theorem claim3_parse_sale_end_value (s : String) :
    (pyStrip s.data = [] → parse_sale_end_value s = ("", none, none))
    ∧ (∀ y1 m1 d1 y2 m2 d2, IsRangeSplit (pyStrip s.data) y1 m1 d1 y2 m2 d2 →
        parse_sale_end_value s =
          match dateStartMs y1 m1 d1, dateEndMs y2 m2 d2 with
          | some lo, some hi =>
            if lo ≤ hi then ("range", some lo, some hi) else ("", none, none)
          | _, _ => ("", none, none))
    ∧ (∀ op y m d, IsOpDateSplit (pyStrip s.data) op y m d →
        parse_sale_end_value s =
          match dateEndMs y m d with
          | some ms => ("op", some ms, none)
          | none => ("", none, none))
    ∧ ((¬ ∃ y1 m1 d1 y2 m2 d2, IsRangeSplit (pyStrip s.data) y1 m1 d1 y2 m2 d2) →
       (¬ ∃ op y m d, IsOpDateSplit (pyStrip s.data) op y m d) →
        parse_sale_end_value s = ("", none, none)) :=
  ⟨parse_of_empty, fun _ _ _ _ _ _ h => parse_of_rangeSplit h,
    fun _ _ _ _ h => parse_of_opSplit h, parse_of_neither⟩

/-- Witness for C3 at the concrete range expression
`"2026-02-01..2026-02-28"`. -/
theorem claim3_parse_sale_end_value_witness :
    parse_sale_end_value "2026-02-01..2026-02-28" =
      ("range", some 1769904000000, some 1772323199999) := by
  have hsplit : IsRangeSplit (pyStrip ("2026-02-01..2026-02-28" : String).data)
      2026 2 1 2026 2 28 := by
    refine ⟨("2026-02-01" : String).data, [], '.', '.', [],
      ("2026-02-28" : String).data, by decide, ?_, ?_, by simp, by simp,
      Or.inl ⟨rfl, rfl⟩⟩
    · exact ⟨'2', '0', '2', '6', '0', '2', '0', '1', by decide, by decide,
        by decide, by decide, by decide⟩
    · exact ⟨'2', '0', '2', '6', '0', '2', '2', '8', by decide, by decide,
        by decide, by decide, by decide⟩
  rw [(claim3_parse_sale_end_value "2026-02-01..2026-02-28").2.1 2026 2 1 2026 2 28
    hsplit]
  decide

/-! ### Claim C4: the "By date" sale-end filter -/

/-- The inclusive day window `[start, start + day - 1]` of the spec. -/
def insideDay (start ms : Int) : Prop :=
  start ≤ ms ∧ ms ≤ start + ONE_DAY_MS - 1

instance (start ms : Int) : Decidable (insideDay start ms) := by
  unfold insideDay; infer_instance

/-- Spec-side day-window semantics of the operator form, as the spec words
them. The single `=` operator has no clause: the code's comparison chain
falls through to `False` for it, so `=` keeps no rows. -/
def dayWindowKeep (op : String) (start ms : Int) : Prop :=
  (op = "<" ∧ ms < start) ∨ (op = "<=" ∧ ms ≤ start + ONE_DAY_MS - 1) ∨
  (op = ">" ∧ start + ONE_DAY_MS ≤ ms) ∨ (op = ">=" ∧ start ≤ ms) ∨
  (op = "==" ∧ insideDay start ms) ∨ (op = "!=" ∧ ¬ insideDay start ms)

instance (op : String) (start ms : Int) : Decidable (dayWindowKeep op start ms) := by
  unfold dayWindowKeep; infer_instance

/-- The comparison chain of the `op` branch equals the spec-side day window
for every operator the regex accepts. -/
theorem byDateChain_eq_dayWindow {op : String} (hop : op ∈ opStrings)
    (start ms : Int) :
    (if op = "<" then decide (ms < start)
     else if op = "<=" then decide (ms ≤ start + ONE_DAY_MS - 1)
     else if op = ">" then decide (ms ≥ start + ONE_DAY_MS)
     else if op = ">=" then decide (ms ≥ start)
     else if op = "==" then decide (start ≤ ms ∧ ms ≤ start + ONE_DAY_MS - 1)
     else if op = "!=" then !decide (start ≤ ms ∧ ms ≤ start + ONE_DAY_MS - 1)
     else false) = decide (dayWindowKeep op start ms) := by
  fin_cases hop <;> simp [dayWindowKeep, insideDay, ge_iff_le, ← not_le, decide_not]

/-- The `op` branch of the "By date" sale-end filter, code-shaped. -/
theorem byDate_of_opSplit {rows : List Row} {s op : String} {y m d : Nat} {start : Int}
    (hop : IsOpDateSplit (pyStrip s.data) op y m d)
    (hstart : dateStartMs y m d = some start) :
    apply_sale_end_filter rows "By date" s =
      rows.filter fun r =>
        match _sale_end_ms r with
        | none => false
        | some ms =>
          if op = "<" then decide (ms < start)
          else if op = "<=" then decide (ms ≤ start + ONE_DAY_MS - 1)
          else if op = ">" then decide (ms ≥ start + ONE_DAY_MS)
          else if op = ">=" then decide (ms ≥ start)
          else if op = "==" then decide (start ≤ ms ∧ ms ≤ start + ONE_DAY_MS - 1)
          else if op = "!=" then !decide (start ≤ ms ∧ ms ≤ start + ONE_DAY_MS - 1)
          else false := by
  have hend : dateEndMs y m d = some (start + ONE_DAY_MS - 1) := by
    unfold dateEndMs; rw [hstart]; rfl
  have hparse : parse_sale_end_value s = ("op", some (start + ONE_DAY_MS - 1), none) := by
    rw [parse_of_opSplit hop, hend]
  simp [apply_sale_end_filter, hparse, matchOpDate_eq_some_iff.mpr hop, hstart]

/-- The `range` branch of the "By date" sale-end filter. -/
theorem byDate_of_rangeSplit {rows : List Row} {s : String} {y1 m1 d1 y2 m2 d2 : Nat}
    {lo hi : Int} (hsplit : IsRangeSplit (pyStrip s.data) y1 m1 d1 y2 m2 d2)
    (hlo : dateStartMs y1 m1 d1 = some lo) (hhi : dateEndMs y2 m2 d2 = some hi)
    (hle : lo ≤ hi) :
    apply_sale_end_filter rows "By date" s =
      rows.filter fun r =>
        match _sale_end_ms r with
        | none => false
        | some ms => decide (lo ≤ ms ∧ ms ≤ hi) := by
  have hparse : parse_sale_end_value s = ("range", some lo, some hi) := by
    rw [parse_of_rangeSplit hsplit, hlo, hhi]
    simp [hle]
  simp [apply_sale_end_filter, hparse]

/-- A minimal row whose only observable is its sale-end timestamp. -/
def mkSaleRow (t : String) (endMs : Option Int) : Row :=
  ⟨t, "", none, [("USD", ⟨"USD", none, none, endMs, none⟩)], none, none, none,
    none, none, none, none, none, none⟩

/-- Sale ends exactly at midnight UTC 2026-02-01. -/
def rowFeb1 : Row := mkSaleRow "feb1" (some 1769904000000)

/-- Sale ends at 23:59:59.999 UTC 2026-02-28. -/
def rowFeb28 : Row := mkSaleRow "feb28" (some 1772323199999)

/-- Sale ends at 2026-03-01T00:00:00 UTC. -/
def rowMar1 : Row := mkSaleRow "mar1" (some 1772323200000)

/-- A row with no sale end at all. -/
def rowNoEnd : Row := mkSaleRow "noend" none

/-- **C4** (amended). For a parsed operator expression the "By date" sale-end
filter keeps exactly the rows whose latest sale-end satisfies the day-window
semantics — except that the accepted operator `=` keeps no rows (the code's
comparison chain has no `=` case, unlike the spec's `==`/`=` claim); for a
parsed range expression it keeps exactly inclusive membership in
`[boundA, boundB]`; rows with no sale-end timestamp are excluded by every
parsed "By date" filter (but not by the Ending Soon/Latest sorts, which keep
them at the end); and the concrete range `2026-02-01..2026-02-28` keeps the
midnight-start and end-of-day boundary timestamps while excluding
2026-03-01T00:00:00. -/
theorem claim4_sale_end_by_date_filter (rows : List Row) (s : String) :
    (∀ op y m d start, IsOpDateSplit (pyStrip s.data) op y m d →
      dateStartMs y m d = some start →
      apply_sale_end_filter rows "By date" s =
        rows.filter fun r =>
          match _sale_end_ms r with
          | none => false
          | some ms => decide (dayWindowKeep op start ms))
    ∧ (∀ y1 m1 d1 y2 m2 d2 lo hi, IsRangeSplit (pyStrip s.data) y1 m1 d1 y2 m2 d2 →
      dateStartMs y1 m1 d1 = some lo → dateEndMs y2 m2 d2 = some hi → lo ≤ hi →
      apply_sale_end_filter rows "By date" s =
        rows.filter fun r =>
          match _sale_end_ms r with
          | none => false
          | some ms => decide (lo ≤ ms ∧ ms ≤ hi))
    ∧ (∀ op y m d start, IsOpDateSplit (pyStrip s.data) op y m d →
      dateStartMs y m d = some start →
      ∀ r, _sale_end_ms r = none → r ∉ apply_sale_end_filter rows "By date" s)
    ∧ (∀ y1 m1 d1 y2 m2 d2 lo hi, IsRangeSplit (pyStrip s.data) y1 m1 d1 y2 m2 d2 →
      dateStartMs y1 m1 d1 = some lo → dateEndMs y2 m2 d2 = some hi → lo ≤ hi →
      ∀ r, _sale_end_ms r = none → r ∉ apply_sale_end_filter rows "By date" s)
    ∧ apply_sale_end_filter [rowFeb1, rowFeb28, rowMar1] "By date"
        "2026-02-01..2026-02-28" = [rowFeb1, rowFeb28] := by
  refine ⟨fun op y m d start hop hstart => ?_,
    fun y1 m1 d1 y2 m2 d2 lo hi hsplit hlo hhi hle => ?_,
    fun op y m d start hop hstart r hnull hmem => ?_,
    fun y1 m1 d1 y2 m2 d2 lo hi hsplit hlo hhi hle r hnull hmem => ?_, ?_⟩
  · rw [byDate_of_opSplit hop hstart]
    refine List.filter_congr fun r _ => ?_
    cases _sale_end_ms r with
    | none => rfl
    | some ms => exact byDateChain_eq_dayWindow (by obtain ⟨w, dt, -, h, -⟩ := hop; exact h) start ms
  · exact byDate_of_rangeSplit hsplit hlo hhi hle
  · rw [byDate_of_opSplit hop hstart] at hmem
    have := (List.mem_filter.mp hmem).2
    rw [hnull] at this
    cases this
  · rw [byDate_of_rangeSplit hsplit hlo hhi hle] at hmem
    have := (List.mem_filter.mp hmem).2
    rw [hnull] at this
    cases this
  · decide

/-- Counterexample to C4 as frozen: the expression `=2026-02-01` is accepted
by the parser and its date window contains `rowFeb1`'s sale end, yet the
filter keeps nothing; and a row without a sale end is not excluded by the
non-"All" filter "Ending Soon". -/
theorem claim4_counterexample :
    (apply_sale_end_filter [rowFeb1] "By date" "=2026-02-01" = []
      ∧ insideDay 1769904000000 1769904000000)
    ∧ (apply_sale_end_filter [rowNoEnd] "Ending Soon" "" = [rowNoEnd]
      ∧ _sale_end_ms rowNoEnd = none) := by
  refine ⟨⟨by decide, by decide⟩, ?_, by decide⟩
  simp [apply_sale_end_filter]

/-- Witness for C4's amended theorem at `"<2026-02-01"`: `rowFeb1` ends at
midnight of that day, not strictly before its start, so it is dropped. -/
theorem claim4_sale_end_by_date_filter_witness :
    apply_sale_end_filter [rowFeb1] "By date" "<2026-02-01" = [] := by
  have hop : IsOpDateSplit (pyStrip ("<2026-02-01" : String).data) "<" 2026 2 1 :=
    ⟨[], ("2026-02-01" : String).data, by decide, by decide, by simp,
      ⟨'2', '0', '2', '6', '0', '2', '0', '1', by decide, by decide, by decide,
        by decide, by decide⟩⟩
  rw [(claim4_sale_end_by_date_filter [rowFeb1] "<2026-02-01").1 "<" 2026 2 1
    1769904000000 hop (by decide)]
  decide

/-! ### Claim C5: the Ending Soon / Ending Latest sorts -/

theorem keyLeBoolInt_trans (a b c : Bool × Int) (h1 : keyLeBoolInt a b = true)
    (h2 : keyLeBoolInt b c = true) : keyLeBoolInt a c = true := by
  rcases a with ⟨a1, a2⟩
  rcases b with ⟨b1, b2⟩
  rcases c with ⟨c1, c2⟩
  cases a1 <;> cases b1 <;> cases c1 <;> simp_all [keyLeBoolInt] <;> omega

theorem keyLeBoolInt_total (a b : Bool × Int) :
    (keyLeBoolInt a b || keyLeBoolInt b a) = true := by
  rcases a with ⟨a1, a2⟩
  rcases b with ⟨b1, b2⟩
  cases a1 <;> cases b1 <;> simp [keyLeBoolInt] <;> omega

/-- Sale end 200. -/
def rowEnd200 : Row := mkSaleRow "r200" (some 200)

/-- No sale end. -/
def rowEndNone : Row := mkSaleRow "rnull" none

/-- Sale end 100. -/
def rowEnd100 : Row := mkSaleRow "r100" (some 100)

/-- **C5.** "Ending Soon" and "Ending Latest" are the stable sorts by the
`(isNull, ±latest-sale-end)` keys: the output is a permutation of the input,
sorted by the key order (ascending sale end for Soon, descending for Latest),
any already-key-sorted subsequence of the input survives as a subsequence of
the output (stability), rows without a sale end come after all rows with one,
and on sale ends `[200, null, 100]` Soon yields `[100, 200, null]` and Latest
`[200, 100, null]`. -/
theorem claim5_sale_end_sorts (rows : List Row) (v : String) :
    ((apply_sale_end_filter rows "Ending Soon" v).Perm rows
     ∧ (apply_sale_end_filter rows "Ending Soon" v).Pairwise
        (fun r1 r2 => keyLeBoolInt (saleEndSoonKey r1) (saleEndSoonKey r2) = true)
     ∧ (∀ c : List Row,
         c.Pairwise (fun r1 r2 => keyLeBoolInt (saleEndSoonKey r1) (saleEndSoonKey r2) = true) →
         c.Sublist rows → c.Sublist (apply_sale_end_filter rows "Ending Soon" v))
     ∧ (∀ r1 r2, [r1, r2].Sublist (apply_sale_end_filter rows "Ending Soon" v) →
         _sale_end_ms r1 = none → _sale_end_ms r2 = none))
    ∧ ((apply_sale_end_filter rows "Ending Latest" v).Perm rows
     ∧ (apply_sale_end_filter rows "Ending Latest" v).Pairwise
        (fun r1 r2 => keyLeBoolInt (saleEndLatestKey r1) (saleEndLatestKey r2) = true)
     ∧ (∀ c : List Row,
         c.Pairwise (fun r1 r2 => keyLeBoolInt (saleEndLatestKey r1) (saleEndLatestKey r2) = true) →
         c.Sublist rows → c.Sublist (apply_sale_end_filter rows "Ending Latest" v))
     ∧ (∀ r1 r2, [r1, r2].Sublist (apply_sale_end_filter rows "Ending Latest" v) →
         _sale_end_ms r1 = none → _sale_end_ms r2 = none))
    ∧ apply_sale_end_filter [rowEnd200, rowEndNone, rowEnd100] "Ending Soon" ""
        = [rowEnd100, rowEnd200, rowEndNone]
    ∧ apply_sale_end_filter [rowEnd200, rowEndNone, rowEnd100] "Ending Latest" ""
        = [rowEnd200, rowEnd100, rowEndNone] := by
  have hsoon : ∀ (rs : List Row),
      apply_sale_end_filter rs "Ending Soon" v =
        rs.mergeSort fun r1 r2 => keyLeBoolInt (saleEndSoonKey r1) (saleEndSoonKey r2) := by
    intro rs; rfl
  have hlatest : ∀ (rs : List Row),
      apply_sale_end_filter rs "Ending Latest" v =
        rs.mergeSort fun r1 r2 => keyLeBoolInt (saleEndLatestKey r1) (saleEndLatestKey r2) := by
    intro rs; rfl
  have htr1 : ∀ r1 r2 r3 : Row, keyLeBoolInt (saleEndSoonKey r1) (saleEndSoonKey r2) = true →
      keyLeBoolInt (saleEndSoonKey r2) (saleEndSoonKey r3) = true →
      keyLeBoolInt (saleEndSoonKey r1) (saleEndSoonKey r3) = true :=
    fun r1 r2 r3 => keyLeBoolInt_trans _ _ _
  have hto1 : ∀ r1 r2 : Row,
      (keyLeBoolInt (saleEndSoonKey r1) (saleEndSoonKey r2) ||
        keyLeBoolInt (saleEndSoonKey r2) (saleEndSoonKey r1)) = true :=
    fun r1 r2 => keyLeBoolInt_total _ _
  have htr2 : ∀ r1 r2 r3 : Row, keyLeBoolInt (saleEndLatestKey r1) (saleEndLatestKey r2) = true →
      keyLeBoolInt (saleEndLatestKey r2) (saleEndLatestKey r3) = true →
      keyLeBoolInt (saleEndLatestKey r1) (saleEndLatestKey r3) = true :=
    fun r1 r2 r3 => keyLeBoolInt_trans _ _ _
  have hto2 : ∀ r1 r2 : Row,
      (keyLeBoolInt (saleEndLatestKey r1) (saleEndLatestKey r2) ||
        keyLeBoolInt (saleEndLatestKey r2) (saleEndLatestKey r1)) = true :=
    fun r1 r2 => keyLeBoolInt_total _ _
  refine ⟨⟨?_, ?_, fun c hc hsub => ?_, fun r1 r2 hsub h1 => ?_⟩,
    ⟨?_, ?_, fun c hc hsub => ?_, fun r1 r2 hsub h1 => ?_⟩, ?_, ?_⟩
  · rw [hsoon]; exact List.mergeSort_perm rows _
  · rw [hsoon]; exact List.sorted_mergeSort htr1 hto1 rows
  · rw [hsoon]; exact List.sublist_mergeSort htr1 hto1 hc hsub
  · have hp : (apply_sale_end_filter rows "Ending Soon" v).Pairwise
        (fun r1 r2 => keyLeBoolInt (saleEndSoonKey r1) (saleEndSoonKey r2) = true) := by
      rw [hsoon]; exact List.sorted_mergeSort htr1 hto1 rows
    have hle := List.pairwise_iff_forall_sublist.mp hp hsub
    cases h2 : _sale_end_ms r2 with
    | none => rfl
    | some ms =>
      exfalso
      simp only [keyLeBoolInt, saleEndSoonKey, h1, h2] at hle
      simp at hle
  · rw [hlatest]; exact List.mergeSort_perm rows _
  · rw [hlatest]; exact List.sorted_mergeSort htr2 hto2 rows
  · rw [hlatest]; exact List.sublist_mergeSort htr2 hto2 hc hsub
  · have hp : (apply_sale_end_filter rows "Ending Latest" v).Pairwise
        (fun r1 r2 => keyLeBoolInt (saleEndLatestKey r1) (saleEndLatestKey r2) = true) := by
      rw [hlatest]; exact List.sorted_mergeSort htr2 hto2 rows
    have hle := List.pairwise_iff_forall_sublist.mp hp hsub
    cases h2 : _sale_end_ms r2 with
    | none => rfl
    | some ms =>
      exfalso
      simp only [keyLeBoolInt, saleEndLatestKey, h1, h2] at hle
      simp at hle
  · simp [apply_sale_end_filter, List.mergeSort, keyLeBoolInt, saleEndSoonKey,
      _sale_end_ms, rowEnd200, rowEndNone, rowEnd100, mkSaleRow]
  · simp [apply_sale_end_filter, List.mergeSort, keyLeBoolInt, saleEndLatestKey,
      _sale_end_ms, rowEnd200, rowEndNone, rowEnd100, mkSaleRow]

/-- Witness for C5's stability clause: the key-sorted subsequence
`[rowEnd200, rowEndNone]` of the input survives in the Soon-sorted output. -/
theorem claim5_sale_end_sorts_witness :
    [rowEnd200, rowEndNone].Sublist
      (apply_sale_end_filter [rowEnd200, rowEndNone, rowEnd100] "Ending Soon" "") := by
  refine (claim5_sale_end_sorts [rowEnd200, rowEndNone, rowEnd100] "").1.2.2.1
    [rowEnd200, rowEndNone] (by decide) ?_
  exact ((List.nil_sublist [rowEnd100]).cons₂ rowEndNone).cons₂ rowEnd200

/-! ### Claim C6: the score filter in Operator mode -/

/-- Spec-side semantics of a numeric operator comparison `x (op) y`. The
single `=` operator has no clause: the code's comparison chain falls through
to `False` for it. -/
def numOpKeep {β : Type} [LinearOrder β] (op : String) (x y : β) : Prop :=
  (op = ">" ∧ y < x) ∨ (op = ">=" ∧ y ≤ x) ∨ (op = "<" ∧ x < y) ∨
  (op = "<=" ∧ x ≤ y) ∨ (op = "==" ∧ x = y) ∨ (op = "!=" ∧ x ≠ y)

instance {β : Type} [LinearOrder β] (op : String) (x y : β) :
    Decidable (numOpKeep op x y) := by
  unfold numOpKeep; infer_instance

theorem cmpNumOp_eq_numOpKeep {β : Type} [LinearOrder β] {op : String}
    (hop : op ∈ opStrings) (x y : β) :
    cmpNumOp op x y = decide (numOpKeep op x y) := by
  fin_cases hop <;> simp [cmpNumOp, numOpKeep]

/-- The Operator branch of the score filter at a parsed expression. -/
theorem score_filter_operator {rows : List Row} {s lv op : String} {ds : List Char}
    (h : IsOpNumSplit (pyStrip s.data) op ds) :
    apply_score_filter rows "Operator" s lv =
      rows.filter fun r =>
        match r.steam_percent_positive with
        | none => false
        | some p => decide (numOpKeep op p (digitsToNat ds : Int)) := by
  have hop : op ∈ opStrings := by
    obtain ⟨w, -, hop, -, -, -⟩ := h
    exact hop
  have hm : matchOpNum (pyStrip s.data) = some (op, digitsToNat ds) :=
    matchOpNum_eq_some_iff.mpr ⟨ds, h, rfl⟩
  have hcode : apply_score_filter rows "Operator" s lv =
      rows.filter fun r =>
        match r.steam_percent_positive with
        | none => false
        | some p => cmpNumOp op p (digitsToNat ds : Int) := by
    simp [apply_score_filter, hm]
  rw [hcode]
  refine List.filter_congr fun r _ => ?_
  cases r.steam_percent_positive with
  | none => rfl
  | some p => exact cmpNumOp_eq_numOpKeep hop p _

/-- Percent 60. -/
def row60 : Row := ⟨"r60", "", none, [], some 60, none, none, none, none, none, none, none, none⟩

/-- Percent 75. -/
def row75 : Row := ⟨"r75", "", none, [], some 75, none, none, none, none, none, none, none, none⟩

/-- Percent 90. -/
def row90 : Row := ⟨"r90", "", none, [], some 90, none, none, none, none, none, none, none, none⟩

/-- Percent null. -/
def rowPctNone : Row := ⟨"rnone", "", none, [], none, none, none, none, none, none, none, none, none⟩

/-- **C6** (amended). In Operator mode the score filter keeps exactly the
rows whose `steam_percent_positive` satisfies the parsed comparison, always
excluding null percents — except that an expression using the accepted
single `=` operator keeps no rows (the comparison chain has no `=` case).
Over `[60, 75, 90, null]`, `>75` keeps exactly `[90]` and `>=75` exactly
`[75, 90]`, in input order. -/
theorem claim6_score_filter_operator (rows : List Row) (s lv : String) :
    (∀ op ds, IsOpNumSplit (pyStrip s.data) op ds →
      apply_score_filter rows "Operator" s lv =
        rows.filter fun r =>
          match r.steam_percent_positive with
          | none => false
          | some p => decide (numOpKeep op p (digitsToNat ds : Int)))
    ∧ (∀ op ds, IsOpNumSplit (pyStrip s.data) op ds →
      ∀ r ∈ apply_score_filter rows "Operator" s lv, r.steam_percent_positive.isSome)
    ∧ (∀ ds, IsOpNumSplit (pyStrip s.data) "=" ds →
      apply_score_filter rows "Operator" s lv = [])
    ∧ apply_score_filter [row60, row75, row90, rowPctNone] "Operator" ">75" "" = [row90]
    ∧ apply_score_filter [row60, row75, row90, rowPctNone] "Operator" ">=75" ""
        = [row75, row90] := by
  refine ⟨fun op ds h => score_filter_operator h,
    fun op ds h r hr => ?_, fun ds h => ?_, by decide, by decide⟩
  · rw [score_filter_operator h] at hr
    have := (List.mem_filter.mp hr).2
    cases hp : r.steam_percent_positive with
    | none => rw [hp] at this; cases this
    | some p => rfl
  · rw [score_filter_operator h]
    have : ∀ r : Row, (match r.steam_percent_positive with
        | none => false
        | some p => decide (numOpKeep "=" p (digitsToNat ds : Int))) = false := by
      intro r
      cases r.steam_percent_positive with
      | none => rfl
      | some p => simp [numOpKeep]
    simp only [this, List.filter_false]

/-- Counterexample to C6 as frozen: `=75` parses, `row75` satisfies the
equality comparison, yet the filter keeps nothing. -/
theorem claim6_counterexample :
    apply_score_filter [row75] "Operator" "=75" "" = []
    ∧ row75.steam_percent_positive = some 75 := by
  decide

/-- Witness for C6 at the parsed expression `>75`. -/
theorem claim6_score_filter_operator_witness :
    apply_score_filter [row60, row75, row90, rowPctNone] "Operator" ">75" ""
      = [row90] := by
  have h : IsOpNumSplit (pyStrip (">75" : String).data) ">" ['7', '5'] :=
    ⟨[], by decide, by decide, by simp, by decide, by decide⟩
  rw [(claim6_score_filter_operator [row60, row75, row90, rowPctNone] ">75" "").1
    ">" ['7', '5'] h]
  decide

/-! ### Claim C8: the price filter -/

theorem opRatSplit_strip_ne_nil {s : String} {op : String} {q : ℚ}
    (h : IsOpRatSplit (pyStrip s.data) op q) : pyStrip s.data ≠ [] := by
  obtain ⟨w, ds, heq, hop, -, -⟩ := h
  rw [heq]
  fin_cases hop <;> simp [data_gt, data_ge, data_lt, data_le, data_eq2, data_eq1, data_ne]

/-- The price filter at a parsed operator-decimal expression. -/
theorem price_filter_operator {rows : List Row} {s cur op : String} {q : ℚ}
    (h : IsOpRatSplit (pyStrip s.data) op q) :
    apply_price_filter rows s cur =
      rows.filter fun r =>
        match _price_for_currency r cur with
        | none => false
        | some p => decide (numOpKeep op p q) := by
  have hop : op ∈ opStrings := by
    obtain ⟨w, ds, -, hop, -, -⟩ := h
    exact hop
  have hm : matchOpRat (pyStrip s.data) = some (op, q) := matchOpRat_eq_some_iff.mpr h
  have hcode : apply_price_filter rows s cur =
      rows.filter fun r =>
        match _price_for_currency r cur with
        | none => false
        | some p => cmpNumOp op p q := by
    simp [apply_price_filter, opRatSplit_strip_ne_nil h, hm]
  rw [hcode]
  refine List.filter_congr fun r _ => ?_
  cases _price_for_currency r cur with
  | none => rfl
  | some p => exact cmpNumOp_eq_numOpKeep hop p q

/-- A row whose only USD variant has `originalPrice` 5 and no discount. -/
def rowPrice5 : Row :=
  ⟨"p5", "", none, [("USD", ⟨"USD", none, none, none, some 5⟩)], none, none, none,
    none, none, none, none, none, none⟩

/-- **C8** (amended). For a parsed operator expression (decimal operands
included) the price filter keeps exactly the rows whose current price — the
currency variant's `discountPrice` if present, else its `originalPrice` —
satisfies the comparison, excluding rows with no variant for that currency;
an expression using the accepted single `=` operator keeps no rows; an empty
or unparseable expression returns the input unchanged. `_price_for_currency`
is modelled from the spec (its definition is imported but absent from the
sources). -/
theorem claim8_price_filter (rows : List Row) (s cur : String) :
    (∀ op q, IsOpRatSplit (pyStrip s.data) op q →
      apply_price_filter rows s cur =
        rows.filter fun r =>
          match _price_for_currency r cur with
          | none => false
          | some p => decide (numOpKeep op p q))
    ∧ (∀ op q, IsOpRatSplit (pyStrip s.data) op q →
      ∀ r ∈ apply_price_filter rows s cur, (_price_for_currency r cur).isSome)
    ∧ (∀ q, IsOpRatSplit (pyStrip s.data) "=" q →
      apply_price_filter rows s cur = [])
    ∧ (pyStrip s.data = [] → apply_price_filter rows s cur = rows)
    ∧ ((¬ ∃ op q, IsOpRatSplit (pyStrip s.data) op q) →
      apply_price_filter rows s cur = rows) := by
  refine ⟨fun op q h => price_filter_operator h, fun op q h r hr => ?_,
    fun q h => ?_, fun hs => ?_, fun hno => ?_⟩
  · rw [price_filter_operator h] at hr
    have := (List.mem_filter.mp hr).2
    cases hp : _price_for_currency r cur with
    | none => rw [hp] at this; cases this
    | some p => rfl
  · rw [price_filter_operator h]
    have hfalse : ∀ r : Row, (match _price_for_currency r cur with
        | none => false
        | some p => decide (numOpKeep "=" p q)) = false := by
      intro r
      cases _price_for_currency r cur with
      | none => rfl
      | some p => simp [numOpKeep]
    simp only [hfalse, List.filter_false]
  · simp [apply_price_filter, hs]
  · have hm : matchOpRat (pyStrip s.data) = none := by
      cases hv : matchOpRat (pyStrip s.data) with
      | none => rfl
      | some v =>
        obtain ⟨op, q⟩ := v
        exact absurd ⟨op, q, matchOpRat_eq_some_iff.mp hv⟩ hno
    by_cases hs : pyStrip s.data = []
    · simp [apply_price_filter, hs]
    · simp [apply_price_filter, hs, hm]

/-- Counterexample to C8 as frozen: `=5` parses, `rowPrice5`'s current USD
price equals 5, yet the filter keeps nothing. -/
theorem claim8_counterexample :
    apply_price_filter [rowPrice5] "=5" "USD" = []
    ∧ _price_for_currency rowPrice5 "USD" = some 5 := by
  decide

/-- Witness for C8 at the parsed expression `<6`. -/
theorem claim8_price_filter_witness :
    apply_price_filter [rowPrice5] "<6" "USD" = [rowPrice5] := by
  have h : IsOpRatSplit (pyStrip ("<6" : String).data) "<" 6 :=
    ⟨[], ['6'], by decide, by decide, by simp,
      Or.inl ⟨by decide, by decide, by decide⟩⟩
  rw [(claim8_price_filter [rowPrice5] "<6" "USD").1 "<" 6 h]
  decide

/-! ### Sublist facts for the predicate filters -/

theorem apply_score_filter_sublist (rows : List Row) (ft sv lv : String) :
    (apply_score_filter rows ft sv lv).Sublist rows := by
  unfold apply_score_filter
  split_ifs <;>
    first
      | exact List.Sublist.refl _
      | (split <;> first | exact List.Sublist.refl _ | exact List.filter_sublist _)

theorem apply_reviews_filter_sublist (rows : List Row) (mr : String) :
    (apply_reviews_filter rows mr).Sublist rows := by
  unfold apply_reviews_filter
  split
  · exact List.Sublist.refl _
  · split_ifs
    · exact List.Sublist.refl _
    · exact List.filter_sublist _

theorem apply_discount_filter_sublist (rows : List Row) (v : String) :
    (apply_discount_filter rows v).Sublist rows := by
  unfold apply_discount_filter
  split_ifs
  · exact List.Sublist.refl _
  · split <;> first | exact List.Sublist.refl _ | exact List.filter_sublist _

theorem apply_price_filter_sublist (rows : List Row) (v cur : String) :
    (apply_price_filter rows v cur).Sublist rows := by
  unfold apply_price_filter
  split_ifs
  · exact List.Sublist.refl _
  · split <;> first | exact List.Sublist.refl _ | exact List.filter_sublist _

theorem sale_end_by_date_sublist (rows : List Row) (v : String) :
    (apply_sale_end_filter rows "By date" v).Sublist rows := by
  unfold apply_sale_end_filter
  rw [if_neg (by decide), if_neg (by decide), if_neg (by decide), if_pos rfl]
  split
  split_ifs <;>
    first
      | exact List.Sublist.refl _
      | (split <;>
          first
            | exact List.Sublist.refl _
            | exact List.filter_sublist _
            | (split <;> first | exact List.Sublist.refl _ | exact List.filter_sublist _))

theorem release_date_by_date_sublist (rows : List Row) (v : String) :
    (_apply_release_date_filter rows "By date" v).Sublist rows := by
  unfold _apply_release_date_filter
  rw [if_neg (by decide), if_neg (by decide), if_neg (by decide), if_pos rfl]
  split
  split_ifs <;>
    first
      | exact List.Sublist.refl _
      | (split <;>
          first
            | exact List.Sublist.refl _
            | exact List.filter_sublist _
            | (split <;> first | exact List.Sublist.refl _ | exact List.filter_sublist _))

theorem publisher_filter_sublist (rows : List Row) (q : String) :
    (_apply_publisher_filter rows q).Sublist rows := by
  simp only [_apply_publisher_filter]
  split_ifs
  · exact List.Sublist.refl _
  · exact List.filter_sublist _

theorem developer_filter_sublist (rows : List Row) (q : String) :
    (_apply_developer_filter rows q).Sublist rows := by
  simp only [_apply_developer_filter]
  split_ifs
  · exact List.Sublist.refl _
  · exact List.filter_sublist _

theorem tags_filter_sublist (rows : List Row) (q : String) :
    (_apply_tags_filter rows q).Sublist rows := by
  simp only [_apply_tags_filter]
  split_ifs
  · exact List.Sublist.refl _
  · exact List.filter_sublist _

theorem game_search_filter_sublist (rows : List Row) (q : String) :
    (_apply_game_search_filter rows q).Sublist rows := by
  simp only [_apply_game_search_filter]
  split_ifs
  · exact List.Sublist.refl _
  · exact List.filter_sublist _

/-! ### Claim C10: predicate filters are order-preserving subsequences -/

/-- **C10.** Every purely predicate-based filter — score, min-reviews,
discount, price, "By date" sale-end, "By date" release-date, and the text
substring filters — returns a subsequence of its input (`List.Sublist`:
every output element comes from the input, relative order is preserved, and
multiplicities never increase). -/
theorem claim10_filters_are_sublists (rows : List Row)
    (ft sv lv mr dv pv cur sev rdv pq dq tq gq : String) :
    (apply_score_filter rows ft sv lv).Sublist rows
    ∧ (apply_reviews_filter rows mr).Sublist rows
    ∧ (apply_discount_filter rows dv).Sublist rows
    ∧ (apply_price_filter rows pv cur).Sublist rows
    ∧ (apply_sale_end_filter rows "By date" sev).Sublist rows
    ∧ (_apply_release_date_filter rows "By date" rdv).Sublist rows
    ∧ (_apply_publisher_filter rows pq).Sublist rows
    ∧ (_apply_developer_filter rows dq).Sublist rows
    ∧ (_apply_tags_filter rows tq).Sublist rows
    ∧ (_apply_game_search_filter rows gq).Sublist rows :=
  ⟨apply_score_filter_sublist rows ft sv lv, apply_reviews_filter_sublist rows mr,
    apply_discount_filter_sublist rows dv, apply_price_filter_sublist rows pv cur,
    sale_end_by_date_sublist rows sev, release_date_by_date_sublist rows rdv,
    publisher_filter_sublist rows pq, developer_filter_sublist rows dq,
    tags_filter_sublist rows tq, game_search_filter_sublist rows gq⟩

/-! ### Sampler lemmas -/

theorem pickStep_perm {α W : Type} [LinearOrderedField W] :
    ∀ {work : List (α × W)} {r : W} {g : α} {rest : List (α × W)},
      pickStep r work = some (g, rest) → ∃ w, work.Perm ((g, w) :: rest) := by
  intro work
  induction work with
  | nil => intro r g rest h; cases h
  | cons x xs ih =>
    intro r g rest h
    rcases x with ⟨g0, w0⟩
    unfold pickStep at h
    split_ifs at h with hle
    · cases h
      exact ⟨w0, List.Perm.refl _⟩
    · split at h
      next g' rest' heq =>
        cases h
        obtain ⟨w, hperm⟩ := ih heq
        exact ⟨w, (hperm.cons (g0, w0)).trans (List.Perm.swap _ _ _)⟩
      next => cases h

theorem popLastPair_perm {α W : Type} :
    ∀ {work : List (α × W)} {g : α} {rest : List (α × W)},
      popLastPair work = some (g, rest) → ∃ w, work.Perm ((g, w) :: rest) := by
  intro work
  induction work with
  | nil => intro g rest h; cases h
  | cons x xs ih =>
    intro g rest h
    cases xs with
    | nil =>
      rcases x with ⟨g0, w0⟩
      cases h
      exact ⟨w0, List.Perm.refl _⟩
    | cons y ys =>
      unfold popLastPair at h
      split at h
      next g' l heq =>
        cases h
        obtain ⟨w, hperm⟩ := ih heq
        exact ⟨w, (hperm.cons x).trans (List.Perm.swap _ _ _)⟩
      next => cases h

theorem popLastPair_ne_none {α W : Type} :
    ∀ {work : List (α × W)}, work ≠ [] → popLastPair work ≠ none := by
  intro work
  induction work with
  | nil => intro h; exact absurd rfl h
  | cons x xs ih =>
    intro _
    cases xs with
    | nil =>
      rcases x with ⟨g, w⟩
      simp [popLastPair]
    | cons y ys =>
      unfold popLastPair
      split
      next => simp
      next heq => exact absurd heq (ih (by simp))

theorem sampleLoop_subperm {α W : Type} [LinearOrderedField W] (ρ : Nat → W) :
    ∀ (k : Nat) (work : List (α × W)) (t : Nat),
      (sampleLoop ρ work k t).Subperm (work.map Prod.fst) := by
  intro k
  induction k with
  | zero =>
    intro work t
    cases work <;> simp [sampleLoop]
  | succ k ih =>
    intro work t
    cases work with
    | nil => simp [sampleLoop]
    | cons x xs =>
      simp only [sampleLoop]
      split_ifs with htot
      · simp
      · split
        next g rest heq =>
          obtain ⟨w, hperm⟩ := pickStep_perm heq
          have h2 := (List.subperm_cons g).mpr (ih rest (t + 1))
          exact h2.trans ((hperm.map Prod.fst).symm).subperm
        next =>
          split
          next g rest heq =>
            obtain ⟨w, hperm⟩ := popLastPair_perm heq
            have h2 := (List.subperm_cons g).mpr (ih rest (t + 1))
            exact h2.trans ((hperm.map Prod.fst).symm).subperm
          next => simp

theorem sampleLoop_length {α W : Type} [LinearOrderedField W] (ρ : Nat → W) :
    ∀ (k : Nat) (work : List (α × W)) (t : Nat), (∀ x ∈ work, 0 < x.2) →
      (sampleLoop ρ work k t).length = min k work.length := by
  intro k
  induction k with
  | zero =>
    intro work t _
    simp [sampleLoop]
  | succ k ih =>
    intro work t hpos
    cases work with
    | nil => simp [sampleLoop]
    | cons x xs =>
      simp only [sampleLoop]
      split_ifs with htot
      · exfalso
        have hsum : 0 < ((x :: xs).map Prod.snd).sum := by
          refine List.sum_pos _ (fun y hy => ?_) (by simp)
          obtain ⟨p, hp, rfl⟩ := List.mem_map.mp hy
          exact hpos p hp
        exact absurd hsum (not_lt.mpr htot)
      · split
        next g rest heq =>
          obtain ⟨w, hperm⟩ := pickStep_perm heq
          have hlen : rest.length + 1 = xs.length + 1 := by
            have := hperm.length_eq
            simpa using this.symm
          have hposr : ∀ y ∈ rest, 0 < y.2 := fun y hy =>
            hpos y (hperm.mem_iff.mpr (by simp [hy]))
          simp only [List.length_cons, ih rest (t + 1) hposr]
          omega
        next =>
          split
          next g rest heq =>
            obtain ⟨w, hperm⟩ := popLastPair_perm heq
            have hlen : rest.length + 1 = xs.length + 1 := by
              have := hperm.length_eq
              simpa using this.symm
            have hposr : ∀ y ∈ rest, 0 < y.2 := fun y hy =>
              hpos y (hperm.mem_iff.mpr (by simp [hy]))
            simp only [List.length_cons, ih rest (t + 1) hposr]
            omega
          next heq =>
            exact absurd heq (popLastPair_ne_none (by simp))

theorem weighted_sample_subperm {α W : Type} [LinearOrderedField W] (games : List α)
    (n : Int) (f : α → W) (ρ : Nat → W) (t : Nat) :
    (_weighted_sample games n f ρ t).Subperm games := by
  unfold _weighted_sample
  split_ifs with h1 h2
  · simp
  · exact List.Subperm.refl games
  · have h := sampleLoop_subperm ρ n.toNat
      (games.map fun g => (g, max (SAMPLE_EPS W) (f g))) t
    simpa [List.map_map, Function.comp_def] using h

theorem weighted_sample_length {α W : Type} [LinearOrderedField W] (games : List α)
    (n : Int) (f : α → W) (ρ : Nat → W) (t : Nat) (hn : 0 < n) (hg : games ≠ []) :
    (_weighted_sample games n f ρ t).length = min n.toNat games.length := by
  unfold _weighted_sample
  split_ifs with h1 h2
  · exfalso
    rcases Bool.or_eq_true_iff.mp h1 with h | h
    · exact absurd (of_decide_eq_true h) (not_le.mpr hn)
    · exact hg (List.isEmpty_iff.mp h)
  · have hlen : games.length ≤ n.toNat := by omega
    exact (min_eq_right hlen).symm
  · have hwork : ∀ x ∈ (games.map fun g => (g, max (SAMPLE_EPS W) (f g))), 0 < x.2 := by
      intro x hx
      obtain ⟨g, hg', rfl⟩ := List.mem_map.mp hx
      have heps : (0 : W) < SAMPLE_EPS W := by
        unfold SAMPLE_EPS
        norm_num
      exact lt_of_lt_of_le heps (le_max_left _ _)
    rw [sampleLoop_length ρ n.toNat _ t hwork]
    simp

/-! ### Claim C2: the weighted sampler -/

/-- **C2.** For every item list, integer `n`, score function and random
stream: `n ≤ 0` or an empty input gives `[]`; for `0 < n` on a non-empty
input the result has exactly `min n (len items)` elements and is drawn from
the input without replacement (`Subperm`: a permutation of a subsequence, so
no input occurrence is used twice); and `n ≥ len items` returns every input
item exactly once (the input list itself). -/
theorem claim2_weighted_sample {α W : Type} [LinearOrderedField W] (games : List α)
    (n : Int) (f : α → W) (ρ : Nat → W) (t : Nat) :
    ((n ≤ 0 ∨ games = []) → _weighted_sample games n f ρ t = [])
    ∧ (0 < n → games ≠ [] →
        (_weighted_sample games n f ρ t).length = min n.toNat games.length
        ∧ (_weighted_sample games n f ρ t).Subperm games)
    ∧ ((games.length : Int) ≤ n → _weighted_sample games n f ρ t = games) := by
  refine ⟨fun h => ?_,
    fun hn hg => ⟨weighted_sample_length games n f ρ t hn hg,
      weighted_sample_subperm games n f ρ t⟩,
    fun hlen => ?_⟩
  · rcases h with h | h
    · simp [_weighted_sample, h]
    · simp [_weighted_sample, h]
  · cases games with
    | nil => simp [_weighted_sample]
    | cons a l =>
      have hn : ¬ n ≤ 0 := by
        have hl : ((a :: l).length : Int) ≤ n := hlen
        simp at hl
        omega
      unfold _weighted_sample
      rw [if_neg (by simp [hn]), if_pos hlen]

/-- Witness for C2 at concrete inputs exercising all three clauses. -/
theorem claim2_weighted_sample_witness :
    (_weighted_sample [1, 2, 3] (2 : Int) (fun x => (x : ℚ)) (fun _ => 1/2) 0).length = 2
    ∧ _weighted_sample ([] : List Nat) (5 : Int) (fun x => (x : ℚ)) (fun _ => 1/2) 0 = []
    ∧ _weighted_sample [1, 2, 3] (7 : Int) (fun x => (x : ℚ)) (fun _ => 1/2) 0
        = [1, 2, 3] := by
  refine ⟨?_, ?_, ?_⟩
  · have h := (claim2_weighted_sample [1, 2, 3] (2 : Int) (fun x => (x : ℚ))
      (fun _ => 1/2) 0).2.1 (by decide) (by decide)
    rw [h.1]
    decide
  · exact (claim2_weighted_sample ([] : List Nat) (5 : Int) (fun x => (x : ℚ))
      (fun _ => 1/2) 0).1 (Or.inr rfl)
  · exact (claim2_weighted_sample [1, 2, 3] (7 : Int) (fun x => (x : ℚ))
      (fun _ => 1/2) 0).2.2 (by decide)

/-! ### Claim C7: totality and malformed-criteria no-ops -/

theorem emailBlocksAux_length {W : Type} [LinearOrderedField W] (pool : List Row)
    (index : Option (List (String × Row))) (cur : String) (f : Row → W)
    (ρ : Nat → W) :
    ∀ (blocks : List Block) (used : List UsedKey) (t : Nat),
      (emailBlocksAux pool index cur f ρ blocks used t).length = blocks.length := by
  intro blocks
  induction blocks with
  | nil => intro used t; rfl
  | cons b bs ih =>
    intro used t
    unfold emailBlocksAux
    simp [ih]

/-- **C7.** Every core operation of the embedding is a total function — all
partial Python primitives (`int`, `float`, `datetime`) are modelled as
`Option` values whose failure paths the source catches — and malformed
criteria degrade to a no-op: an unparseable operator expression leaves the
score/discount/price filters unchanged, a non-numeric value leaves the
Exact-%/min-reviews filters unchanged, an unparseable date expression leaves
the "By date" filters unchanged, and the sampler and the block allocation
engine return well-shaped results (at most `len games` samples; exactly one
entry per block) for every input. -/
theorem claim7_total_and_malformed_no_op :
    (∀ (rows : List Row) (s lv : String), matchOpNum (pyStrip s.data) = none →
      apply_score_filter rows "Operator" s lv = rows)
    ∧ (∀ (rows : List Row) (s lv : String), pyParseInt s = none →
      apply_score_filter rows "Exact %" s lv = rows)
    ∧ (∀ (rows : List Row) (s : String), pyParseInt s = none →
      apply_reviews_filter rows s = rows)
    ∧ (∀ (rows : List Row) (s : String), matchOpNum (pyStrip s.data) = none →
      apply_discount_filter rows s = rows)
    ∧ (∀ (rows : List Row) (s cur : String), matchOpRat (pyStrip s.data) = none →
      apply_price_filter rows s cur = rows)
    ∧ (∀ (rows : List Row) (s : String), parse_sale_end_value s = ("", none, none) →
      apply_sale_end_filter rows "By date" s = rows)
    ∧ (∀ (rows : List Row) (s : String), parse_sale_end_value s = ("", none, none) →
      _apply_release_date_filter rows "By date" s = rows)
    ∧ (∀ (α W : Type) [LinearOrderedField W] (games : List α) (n : Int)
        (f : α → W) (ρ : Nat → W) (t : Nat),
        (_weighted_sample games n f ρ t).length ≤ games.length)
    ∧ (∀ (W : Type) [LinearOrderedField W] (blocks : List Block) (pool : List Row)
        (index : Option (List (String × Row))) (cur : String) (f : Row → W)
        (ρ : Nat → W),
        (emailBlockGames blocks pool index cur f ρ).length = blocks.length) := by
  refine ⟨fun rows s lv h => ?_, fun rows s lv h => ?_, fun rows s h => ?_,
    fun rows s h => ?_, fun rows s cur h => ?_, fun rows s h => ?_, fun rows s h => ?_,
    fun α W _ games n f ρ t => ?_, fun W _ blocks pool index cur f ρ => ?_⟩
  · simp [apply_score_filter, h]
  · simp [apply_score_filter, h]
  · simp [apply_reviews_filter, h]
  · by_cases hs : pyStrip s.data = []
    · simp [apply_discount_filter, hs]
    · simp [apply_discount_filter, hs, h]
  · by_cases hs : pyStrip s.data = []
    · simp [apply_price_filter, hs]
    · simp [apply_price_filter, hs, h]
  · simp [apply_sale_end_filter, h]
  · simp [_apply_release_date_filter, h]
  · exact (weighted_sample_subperm games n f ρ t).length_le
  · unfold emailBlockGames
    rw [List.length_map]
    exact emailBlocksAux_length pool index cur f ρ blocks [] 0

/-- Witness for C7 at concrete malformed criteria. -/
theorem claim7_total_and_malformed_no_op_witness :
    apply_score_filter [row75] "Operator" "banana" "" = [row75]
    ∧ apply_score_filter [row75] "Exact %" "9x" "" = [row75]
    ∧ apply_reviews_filter [row75] "abc" = [row75]
    ∧ apply_discount_filter [row75] ">>50" = [row75]
    ∧ apply_price_filter [row75] "<1.2.3" "USD" = [row75]
    ∧ apply_sale_end_filter [row75] "By date" "2026-13-01..2026-13-02" = [row75] := by
  refine ⟨claim7_total_and_malformed_no_op.1 [row75] "banana" "" (by decide),
    claim7_total_and_malformed_no_op.2.1 [row75] "9x" "" (by decide),
    claim7_total_and_malformed_no_op.2.2.1 [row75] "abc" (by decide),
    claim7_total_and_malformed_no_op.2.2.2.1 [row75] ">>50" (by decide),
    claim7_total_and_malformed_no_op.2.2.2.2.1 [row75] "<1.2.3" "USD" (by decide),
    claim7_total_and_malformed_no_op.2.2.2.2.2.1 [row75] "2026-13-01..2026-13-02"
      (by decide)⟩

/-! ### Claim C9: the scoring function -/

theorem weighted5_bounds {a b c d e : ℝ} (ha : 0 ≤ a ∧ a ≤ 1) (hb : 0 ≤ b ∧ b ≤ 1)
    (hc : 0 ≤ c ∧ c ≤ 1) (hd : 0 ≤ d ∧ d ≤ 1) (he : 0 ≤ e ∧ e ≤ 1) :
    0 ≤ 0.25 * a + 0.2 * b + 0.2 * c + 0.2 * d + 0.15 * e
    ∧ 0.25 * a + 0.2 * b + 0.2 * c + 0.2 * d + 0.15 * e ≤ 1 := by
  constructor <;> nlinarith [ha.1, ha.2, hb.1, hb.2, hc.1, hc.2, hd.1, hd.2, he.1, he.2]

/-- A log-compressed component `min 1 (log10 (1+n) / c)` (or `0` for `n = 0`)
lies in `[0, 1]`. -/
theorem logComponent_bounds (nn : Nat) (c : ℝ) (hcpos : 0 < c) :
    0 ≤ (if nn ≠ 0 then min 1 (Real.logb 10 (1 + (nn : ℝ)) / c) else 0)
    ∧ (if nn ≠ 0 then min 1 (Real.logb 10 (1 + (nn : ℝ)) / c) else 0) ≤ 1 := by
  split_ifs with h
  · constructor
    · refine le_min (by norm_num) (div_nonneg ?_ hcpos.le)
      refine Real.logb_nonneg (by norm_num) ?_
      have : (0 : ℝ) ≤ (nn : ℝ) := Nat.cast_nonneg nn
      linarith
    · exact min_le_left _ _
  · norm_num

/-- **C9.** For every data-model-valid row (percent positive in `[0, 100]`,
nonnegative discount percentage when present), the score lies in `[0, 1]`;
the five component weights sum to exactly 1; and a row with rating, reviews,
discount, owners and ccu all absent (or zero) scores exactly 0 — a missing
field only contributes 0, it never removes the row. -/
theorem claim9_game_pick_score (g : Row)
    (hpct : ∀ p, g.steam_percent_positive = some p → 0 ≤ p ∧ p ≤ 100)
    (hdisc : ∀ n, _discount_pct g = some n → 0 ≤ n) :
    (0 ≤ _game_pick_score g ∧ _game_pick_score g ≤ 1)
    ∧ RATING_WEIGHT + REVIEWS_WEIGHT + DISCOUNT_WEIGHT + OWNERS_WEIGHT + CCU_WEIGHT = 1
    ∧ (g.steam_percent_positive = none → g.steam_total_reviews.getD 0 = 0 →
        _discount_pct g = none → g.steamspy_owners_estimate.getD 0 = 0 →
        g.steamspy_ccu.getD 0 = 0 → _game_pick_score g = 0) := by
  have hrating : 0 ≤ (match g.steam_percent_positive with
        | some p => (p : ℝ) / 100
        | none => (0 : ℝ))
      ∧ (match g.steam_percent_positive with
        | some p => (p : ℝ) / 100
        | none => (0 : ℝ)) ≤ 1 := by
    cases hp : g.steam_percent_positive with
    | none => norm_num
    | some p =>
      obtain ⟨h0, h100⟩ := hpct p hp
      constructor
      · exact div_nonneg (by exact_mod_cast h0) (by norm_num)
      · rw [div_le_one (by norm_num)]
        exact_mod_cast h100
  have hdiscount : 0 ≤ min 1 (((_discount_pct g).getD 0 : ℝ) / 100)
      ∧ min 1 (((_discount_pct g).getD 0 : ℝ) / 100) ≤ 1 := by
    constructor
    · refine le_min (by norm_num) (div_nonneg ?_ (by norm_num))
      cases hd : _discount_pct g with
      | none => simp
      | some n =>
        have := hdisc n hd
        simp only [Option.getD_some]
        exact_mod_cast this
    · exact min_le_left _ _
  refine ⟨?_, by norm_num [RATING_WEIGHT, REVIEWS_WEIGHT, DISCOUNT_WEIGHT,
    OWNERS_WEIGHT, CCU_WEIGHT], fun h1 h2 h3 h4 h5 => ?_⟩
  · simp only [_game_pick_score, RATING_WEIGHT, REVIEWS_WEIGHT, DISCOUNT_WEIGHT,
      OWNERS_WEIGHT, CCU_WEIGHT]
    exact weighted5_bounds hrating
      (logComponent_bounds (g.steam_total_reviews.getD 0) 6 (by norm_num))
      hdiscount
      (logComponent_bounds (g.steamspy_owners_estimate.getD 0) 8 (by norm_num))
      (logComponent_bounds (g.steamspy_ccu.getD 0) 5 (by norm_num))
  · simp only [_game_pick_score, h1, h2, h3, h4, h5]
    norm_num

/-- The row with every optional field absent. -/
def rowAllNone : Row :=
  ⟨"empty", "", none, [], none, none, none, none, none, none, none, none, none⟩

/-- Witness for C9 at the all-absent row. -/
theorem claim9_game_pick_score_witness : _game_pick_score rowAllNone = 0 := by
  have hd : _discount_pct rowAllNone = none := rfl
  exact (claim9_game_pick_score rowAllNone (fun p h => nomatch h)
    (fun n h => nomatch (hd ▸ h))).2.2 rfl rfl hd rfl rfl

/-! ### Claim C1: the block allocation engine -/

theorem blockFilteredPool_sublist (pool : List Row) (cur : String) (cfg : BlockConfig)
    (used : List UsedKey) : (blockFilteredPool pool cur cfg used).Sublist pool := by
  unfold blockFilteredPool
  refine (List.filter_sublist _).trans ?_
  refine (apply_discount_filter_sublist _ _).trans ?_
  refine (apply_price_filter_sublist _ _ _).trans ?_
  refine (tags_filter_sublist _ _).trans ?_
  exact (developer_filter_sublist _ _).trans (publisher_filter_sublist _ _)

theorem blockFilteredPool_key_not_used {pool : List Row} {cur : String}
    {cfg : BlockConfig} {used : List UsedKey} {g : Row}
    (hg : g ∈ blockFilteredPool pool cur cfg used) :
    ∀ k, _game_used_key g = some k → k ∉ used := by
  intro k hk
  have hpred := (List.mem_filter.mp hg).2
  rw [hk] at hpred
  exact of_decide_eq_true hpred

theorem subperm_filterMap_nodup {α β : Type} {l1 l2 : List α} (f : α → Option β)
    (h : l1.Subperm l2) (hnd : (l2.filterMap f).Nodup) : (l1.filterMap f).Nodup := by
  obtain ⟨l, hperm, hsub⟩ := h
  have h1 : (l.filterMap f).Nodup := (hsub.filterMap f).nodup hnd
  exact (hperm.filterMap f).nodup h1

theorem blockAssign_used_mono {W : Type} [LinearOrderedField W] (pool : List Row)
    (index : Option (List (String × Row))) (cur : String) (f : Row → W) (ρ : Nat → W)
    (b : Block) (used : List UsedKey) (t : Nat) :
    (∀ k ∈ used, k ∈ (blockAssign pool index cur f ρ b used t).2.1)
    ∧ ∀ k ∈ assignedKeys (blockAssign pool index cur f ρ b used t).1,
        k ∈ (blockAssign pool index cur f ρ b used t).2.1 := by
  unfold blockAssign
  dsimp only
  by_cases hskip : pyLower (pyStripS (b.type.getD "")) ≠ "deal_list" ∧
      pyLower (pyStripS (b.type.getD "")) ≠ "featured"
  · rw [if_pos hskip]
    exact ⟨fun k hk => hk, fun k hk => by simp [assignedKeys] at hk⟩
  · rw [if_neg hskip]
    constructor
    · intro k hk
      exact List.mem_append.mpr (Or.inl hk)
    · intro k hk
      simp only [assignedKeys, Option.getD_some] at hk
      exact List.mem_append.mpr (Or.inr hk)

theorem blockAssign_sampled {W : Type} [LinearOrderedField W] (pool : List Row)
    (index : Option (List (String × Row))) (cur : String) (f : Row → W) (ρ : Nat → W)
    (b : Block) (used : List UsedKey) (t : Nat)
    (hs : isSampledPath b index.isSome = true) :
    ∃ games, (blockAssign pool index cur f ρ b used t).1 = some games
      ∧ games.Subperm (blockFilteredPool pool cur (b.config.getD emptyConfig) used) := by
  unfold isSampledPath at hs
  unfold blockAssign
  dsimp only at hs ⊢
  by_cases hdl : pyLower (pyStripS (b.type.getD "")) = "deal_list"
  · rw [if_pos hdl] at hs
    simp only [Bool.and_eq_true, Bool.not_eq_true'] at hs
    obtain ⟨hs1, hs2⟩ := hs
    rw [if_neg (by simp [hdl]), if_pos hdl, if_neg (by simp [hs1]),
      if_neg (by simp [hs2])]
    exact ⟨_, rfl, weighted_sample_subperm _ _ _ _ _⟩
  · rw [if_neg hdl] at hs
    by_cases hft : pyLower (pyStripS (b.type.getD "")) = "featured"
    · rw [if_pos hft] at hs
      simp only [Bool.and_eq_true, Bool.not_eq_true'] at hs
      obtain ⟨hs1, hs2⟩ := hs
      rw [if_neg (by simp [hft]), if_neg hdl,
        if_neg (by rw [hs1]; exact Bool.false_ne_true),
        if_neg (by rw [hs2]; exact Bool.false_ne_true)]
      exact ⟨_, rfl, weighted_sample_subperm _ _ _ _ _⟩
    · rw [if_neg hft] at hs
      cases hs

theorem sampled_games_keys {pool : List Row} {cur : String} {cfg : BlockConfig}
    {used : List UsedKey} {games : List Row}
    (hpool : (pool.filterMap _game_used_key).Nodup)
    (hsub : games.Subperm (blockFilteredPool pool cur cfg used)) :
    (games.filterMap _game_used_key).Nodup
    ∧ ∀ k ∈ games.filterMap _game_used_key, k ∉ used := by
  constructor
  · refine subperm_filterMap_nodup _ hsub ?_
    exact List.Nodup.sublist
      ((blockFilteredPool_sublist pool cur cfg used).filterMap _) hpool
  · intro k hk
    obtain ⟨g, hg, hgk⟩ := List.mem_filterMap.mp hk
    exact blockFilteredPool_key_not_used (hsub.subset hg) k hgk

theorem emailBlocksAux_invariant {W : Type} [LinearOrderedField W] (pool : List Row)
    (index : Option (List (String × Row))) (cur : String) (f : Row → W) (ρ : Nat → W)
    (hpool : (pool.filterMap _game_used_key).Nodup) :
    ∀ (blocks : List Block) (used : List UsedKey) (t : Nat),
      (∀ (i : Nat) (res : Option (List Row)) (u' : List UsedKey),
        (emailBlocksAux pool index cur f ρ blocks used t)[i]? = some (res, u') →
        (∀ k ∈ used, k ∈ u') ∧ (∀ k ∈ assignedKeys res, k ∈ u'))
      ∧ (∀ (i j : Nat) (ri : Option (List Row)) (ui : List UsedKey)
          (rj : Option (List Row)) (uj : List UsedKey), i ≤ j →
          (emailBlocksAux pool index cur f ρ blocks used t)[i]? = some (ri, ui) →
          (emailBlocksAux pool index cur f ρ blocks used t)[j]? = some (rj, uj) →
          ∀ k ∈ ui, k ∈ uj)
      ∧ (∀ (j : Nat) (b : Block) (rj : Option (List Row)) (uj : List UsedKey),
          blocks[j]? = some b →
          (emailBlocksAux pool index cur f ρ blocks used t)[j]? = some (rj, uj) →
          isSampledPath b index.isSome = true →
          (assignedKeys rj).Nodup
          ∧ (∀ k ∈ assignedKeys rj, k ∉ used)
          ∧ (∀ (i : Nat) (ri : Option (List Row)) (ui : List UsedKey), i < j →
              (emailBlocksAux pool index cur f ρ blocks used t)[i]? = some (ri, ui) →
              ∀ k ∈ assignedKeys rj, k ∉ assignedKeys ri)) := by
  intro blocks
  induction blocks with
  | nil =>
    intro used t
    refine ⟨fun i res u' h => ?_, fun i j ri ui rj uj _ h => ?_, fun j b rj uj hb => ?_⟩
    · simp [emailBlocksAux] at h
    · simp [emailBlocksAux] at h
    · simp at hb
  | cons b bs ih =>
    intro used t
    have hmono := blockAssign_used_mono pool index cur f ρ b used t
    obtain ⟨ih1, ih2, ih3⟩ := ih (blockAssign pool index cur f ρ b used t).2.1
      (blockAssign pool index cur f ρ b used t).2.2
    have htrace : emailBlocksAux pool index cur f ρ (b :: bs) used t =
        ((blockAssign pool index cur f ρ b used t).1,
         (blockAssign pool index cur f ρ b used t).2.1) ::
          emailBlocksAux pool index cur f ρ bs
            (blockAssign pool index cur f ρ b used t).2.1
            (blockAssign pool index cur f ρ b used t).2.2 := rfl
    rw [htrace]
    refine ⟨fun i res u' h => ?_, fun i j ri ui rj uj hij hi hj => ?_,
      fun j b0 rj uj hb hj hsamp => ?_⟩
    · cases i with
      | zero =>
        rw [List.getElem?_cons_zero] at h
        have h' := Option.some.inj h
        rw [Prod.mk.injEq] at h'
        obtain ⟨h1, h2⟩ := h'
        subst h1
        subst h2
        exact hmono
      | succ i =>
        rw [List.getElem?_cons_succ] at h
        obtain ⟨g1, g2⟩ := ih1 i res u' h
        exact ⟨fun k hk => g1 k (hmono.1 k hk), g2⟩
    · cases i with
      | zero =>
        rw [List.getElem?_cons_zero] at hi
        have h' := Option.some.inj hi
        rw [Prod.mk.injEq] at h'
        obtain ⟨h1, h2⟩ := h'
        subst h1
        subst h2
        cases j with
        | zero =>
          rw [List.getElem?_cons_zero] at hj
          have h'' := Option.some.inj hj
          rw [Prod.mk.injEq] at h''
          obtain ⟨h3, h4⟩ := h''
          subst h3
          subst h4
          exact fun k hk => hk
        | succ j =>
          rw [List.getElem?_cons_succ] at hj
          exact fun k hk => (ih1 j rj uj hj).1 k hk
      | succ i =>
        cases j with
        | zero => omega
        | succ j =>
          rw [List.getElem?_cons_succ] at hi hj
          exact ih2 i j ri ui rj uj (by omega) hi hj
    · cases j with
      | zero =>
        rw [List.getElem?_cons_zero] at hb hj
        have hb' := Option.some.inj hb
        subst hb'
        have h' := Option.some.inj hj
        rw [Prod.mk.injEq] at h'
        obtain ⟨h1, h2⟩ := h'
        subst h1
        subst h2
        obtain ⟨games, hg, hsub⟩ :=
          blockAssign_sampled pool index cur f ρ b used t hsamp
        obtain ⟨hnd, hnin⟩ := sampled_games_keys hpool hsub
        refine ⟨?_, fun k hk => ?_, fun i ri ui hi _ => ?_⟩
        · rw [hg]
          simpa [assignedKeys] using hnd
        · rw [hg] at hk
          exact hnin k (by simpa [assignedKeys] using hk)
        · omega
      | succ j =>
        rw [List.getElem?_cons_succ] at hb hj
        obtain ⟨hnd, hnin, hcross⟩ := ih3 j b0 rj uj hb hj hsamp
        refine ⟨hnd, fun k hk hkused => ?_, fun i ri ui hi hti => ?_⟩
        · exact hnin k hk (hmono.1 k hkused)
        · cases i with
          | zero =>
            rw [List.getElem?_cons_zero] at hti
            have h' := Option.some.inj hti
            rw [Prod.mk.injEq] at h'
            obtain ⟨h1, h2⟩ := h'
            subst h1
            subst h2
            intro k hk hkri
            exact hnin k hk (hmono.2 k hkri)
          | succ i =>
            rw [List.getElem?_cons_succ] at hti
            exact hcross i ri ui (by omega) hti

/-- **C1** (amended: the pool's keyed rows must have pairwise-distinct dedup
keys — with duplicate-key pools one block can sample two copies of the same
key, see the counterexample). For every block list and such a pool, with the
combined requested count at most the pool size (the claim's premise; the
invariants below in fact hold regardless of it): the engine's output is the
per-block projection of its trace; every assigned row's key is in the used
set recorded for that block, i.e. added before the next block runs; the used
set only ever grows along the trace; and a block assigned through the
sampling path has pairwise-distinct assigned keys that meet neither the
prior used set nor any earlier block's assignment — so a dedup key repeats,
within or across blocks, only via manual-override picks. -/
theorem claim1_block_allocation_no_duplicates {W : Type} [LinearOrderedField W]
    (blocks : List Block) (pool : List Row) (index : Option (List (String × Row)))
    (currency : String) (f : Row → W) (ρ : Nat → W)
    (hpool : (pool.filterMap _game_used_key).Nodup)
    (_hcount : requestedCount blocks ≤ pool.length) :
    emailBlockGames blocks pool index currency f ρ =
      (emailBlocksAux pool index currency f ρ blocks [] 0).map Prod.fst
    ∧ (∀ (i : Nat) (res : Option (List Row)) (u' : List UsedKey),
        (emailBlocksAux pool index currency f ρ blocks [] 0)[i]? = some (res, u') →
        ∀ k ∈ assignedKeys res, k ∈ u')
    ∧ (∀ (i j : Nat) (ri : Option (List Row)) (ui : List UsedKey)
        (rj : Option (List Row)) (uj : List UsedKey), i ≤ j →
        (emailBlocksAux pool index currency f ρ blocks [] 0)[i]? = some (ri, ui) →
        (emailBlocksAux pool index currency f ρ blocks [] 0)[j]? = some (rj, uj) →
        ∀ k ∈ ui, k ∈ uj)
    ∧ (∀ (j : Nat) (b : Block) (rj : Option (List Row)) (uj : List UsedKey),
        blocks[j]? = some b →
        (emailBlocksAux pool index currency f ρ blocks [] 0)[j]? = some (rj, uj) →
        isSampledPath b index.isSome = true →
        (assignedKeys rj).Nodup
        ∧ (∀ (i : Nat) (ri : Option (List Row)) (ui : List UsedKey), i < j →
            (emailBlocksAux pool index currency f ρ blocks [] 0)[i]? = some (ri, ui) →
            ∀ k ∈ assignedKeys rj, k ∉ assignedKeys ri)) := by
  obtain ⟨g1, g2, g3⟩ :=
    emailBlocksAux_invariant pool index currency f ρ hpool blocks [] 0
  refine ⟨rfl, fun i res u' h => (g1 i res u' h).2, g2,
    fun j b rj uj hb hj hsamp => ?_⟩
  obtain ⟨hnd, -, hcross⟩ := g3 j b rj uj hb hj hsamp
  exact ⟨hnd, hcross⟩

/-- Two rows sharing one link, hence one dedup key. -/
def dupRowA : Row :=
  ⟨"A", "http://dup", none, [], none, none, none, none, none, none, none, none, none⟩

/-- Second copy of the duplicate-link row. -/
def dupRowB : Row :=
  ⟨"B", "http://dup", none, [], none, none, none, none, none, none, none, none, none⟩

/-- A plain two-game `deal_list` block with no overrides. -/
def dupBlock : Block :=
  ⟨some "deal_list", some { emptyConfig with games_count := some 2 }⟩

unseal Rat.mul Rat.inv Rat.add Rat.sub in
/-- Counterexample to C1 as frozen: over a pool holding two rows with the
same link, a single sampled (non-override) `deal_list` block whose requested
count equals the pool size is assigned the same dedup key twice within one
block. -/
theorem claim1_counterexample :
    requestedCount [dupBlock] ≤ ([dupRowA, dupRowB] : List Row).length
    ∧ isSampledPath dupBlock false = true
    ∧ ¬ (assignedKeys ((emailBlockGames (W := ℚ) [dupBlock] [dupRowA, dupRowB] none
        "USD" (fun _ => 0) (fun _ => 0)).headD none)).Nodup := by
  exact ⟨by decide, by decide, by decide⟩

/-- One-game block and a two-row distinct-key pool for the C1 witness. -/
def wBlock : Block :=
  ⟨some "deal_list", some { emptyConfig with games_count := some 1 }⟩

/-- First witness row. -/
def wRowA : Row :=
  ⟨"wa", "http://a", none, [], none, none, none, none, none, none, none, none, none⟩

/-- Second witness row. -/
def wRowB : Row :=
  ⟨"wb", "http://b", none, [], none, none, none, none, none, none, none, none, none⟩

unseal Rat.mul Rat.inv Rat.add Rat.sub in
/-- Witness for C1 at a concrete one-block run. -/
theorem claim1_block_allocation_no_duplicates_witness :
    (assignedKeys (some [wRowA])).Nodup
    ∧ (emailBlocksAux (W := ℚ) [wRowA, wRowB] none "USD" (fun _ => 0) (fun _ => 0)
        [wBlock] [] 0)[0]? = some (some [wRowA], [UsedKey.link "http://a"]) := by
  have htr : (emailBlocksAux (W := ℚ) [wRowA, wRowB] none "USD" (fun _ => 0)
      (fun _ => 0) [wBlock] [] 0)[0]? = some (some [wRowA], [UsedKey.link "http://a"]) := by
    decide
  refine ⟨((claim1_block_allocation_no_duplicates [wBlock] [wRowA, wRowB] none "USD"
    (fun _ => (0 : ℚ)) (fun _ => 0) (by decide) (by decide)).2.2.2 0 wBlock
    (some [wRowA]) [UsedKey.link "http://a"] (by decide) htr (by decide)).1, htr⟩

end DealTool
